import Mathlib

/-!
Verification development for the voidlight-markdown-mcp-server repository.

The Python sources are shallowly embedded: each Lean definition mirrors one
Python function or class of the repository (file and line references are given
in the doc comments).  Python strings are Lean `String`s (sequences of Unicode
scalar values), Python `Optional[str]` fields are `Option String`, Python float
priorities are `Rat` (only order comparisons of exactly-representable literals
occur), and fallible code returns `Except`/`Option`.

The repository's `voidlight_markitdown_mcp/core` package re-exports
`StreamInfo` and `DocumentConverter` from files (`stream_info.py`,
`base_converter.py`) that are absent from the source snapshot; the sibling
package `markitdown_mcp_enhanced/core` contains the same modules, and those
files are used as the source for the corresponding definitions below, as noted
per definition.
-/

set_option maxRecDepth 100000

namespace Spec2Proof

/-- Python truthiness of an `Optional[str]` value: `None` and `""` are falsy,
every other string is truthy. -/
def truthy (o : Option String) : Bool :=
  o.getD "" ≠ ""

/-- The set of characters Python treats as whitespace: this is both the set
matched by the regex class `\s` (with Unicode string patterns) and the set
stripped by `str.strip()`. -/
def isPySpace (c : Char) : Bool :=
  c = ' ' ∨ c = '\t' ∨ c = '\n' ∨ c = '\r' ∨ c = '\x0b' ∨ c = '\x0c' ∨
  c = '\x1c' ∨ c = '\x1d' ∨ c = '\x1e' ∨ c = '\x1f' ∨ c = '\x85' ∨ c = '\xa0' ∨
  c = '\u1680' ∨ ('\u2000' ≤ c ∧ c ≤ '\u200a') ∨ c = '\u2028' ∨ c = '\u2029' ∨
  c = '\u202f' ∨ c = '\u205f' ∨ c = '\u3000'

/-- `p` is a prefix of `s` (kernel-computable `str.startswith`). -/
def listIsPre : List Char → List Char → Bool
  | [], _ => true
  | _ :: _, [] => false
  | p :: ps, c :: cs => p = c ∧ listIsPre ps cs

/-- Python `str.startswith`. -/
def pyStartsWith (s p : String) : Bool :=
  listIsPre p.data s.data

/-- ASCII `str.lower()` on one character (the strings this development lowers
are ASCII, where Python agrees). -/
def charPyLower (c : Char) : Char :=
  if 'A' ≤ c ∧ c ≤ 'Z' then Char.ofNat (c.toNat + 32) else c

/-- `str.strip()` on the left: drop leading Python whitespace. -/
def pyLStrip (l : List Char) : List Char :=
  l.dropWhile isPySpace

/-- `str.strip()`: drop leading and trailing Python whitespace. -/
def pyStripChars (l : List Char) : List Char :=
  (pyLStrip ((pyLStrip l).reverse)).reverse

/-- `str.strip()` on `String`s. -/
def pyStrip (s : String) : String :=
  (pyStripChars s.data).asString

/-- The basename of a path string: the part after the last `/`
(mirrors `pathlib.PurePosixPath` name extraction). -/
def pathBasename (s : String) : List Char :=
  ((s.data.reverse.takeWhile (· ≠ '/')).reverse)

/-- `pathlib.Path(filename).suffix`: the final `.`-extension of the basename
including the dot; empty when the basename has no dot, starts with its only
dot, or ends with the dot. -/
def pathSuffix (filename : String) : String :=
  let base := pathBasename filename
  match (base.reverse.findIdx? (· = '.')) with
  | some k =>
      let i := base.length - 1 - k
      if 0 < i ∧ i + 1 < base.length then (base.drop i).asString else ""
  | none => ""

/-- `str.lower()`; agrees with Python on the ASCII strings that occur in this
development. -/
def pyLower (s : String) : String :=
  (s.data.map charPyLower).asString

/-- `core/stream_info.py` lines 10-19 (`markitdown_mcp_enhanced` tree; the
`voidlight_markitdown_mcp` tree re-exports the same class from a module absent
from the snapshot): the `StreamInfo` dataclass, all six fields defaulting to
`None`. -/
structure StreamInfo where
  mimetype : Option String := none
  extension : Option String := none
  charset : Option String := none
  filename : Option String := none
  local_path : Option String := none
  url : Option String := none
deriving Repr, DecidableEq

namespace StreamInfo

/-- `stream_info.py` lines 21-29, `__post_init__`: prefix a missing dot on a
truthy extension, then back-fill a falsy extension from the filename's
lower-cased suffix.  Every Python construction of a `StreamInfo` runs this. -/
def postInit (s : StreamInfo) : StreamInfo :=
  let s :=
    if truthy s.extension ∧ ¬ pyStartsWith (s.extension.getD "") "." then
      { s with extension := some ("." ++ s.extension.getD "") }
    else s
  if truthy s.filename ∧ ¬ truthy s.extension then
    { s with extension := some (pyLower (pathSuffix (s.filename.getD ""))) }
  else s

/-- `stream_info.py` lines 42-50, `__eq__` (between two `StreamInfo`s):
compares the `mimetype`, `extension` and `filename` fields. -/
def pyEq (a b : StreamInfo) : Bool :=
  a.mimetype = b.mimetype ∧ a.extension = b.extension ∧ a.filename = b.filename

/-- `stream_info.py` lines 52-56, `matches_extension`: case-insensitive
membership of the (truthy) extension in the given list. -/
def matches_extension (s : StreamInfo) (extensions : List String) : Bool :=
  if ¬ truthy s.extension then false
  else (extensions.map pyLower).contains (pyLower (s.extension.getD ""))

/-- `stream_info.py` lines 58-62, `matches_mimetype`: the (truthy) mimetype
starts with one of the given strings. -/
def matches_mimetype (s : StreamInfo) (mimetypes : List String) : Bool :=
  if ¬ truthy s.mimetype then false
  else mimetypes.any (fun mt => pyStartsWith (s.mimetype.getD "") mt)

/-- `stream_info.py` lines 64-69, `is_empty`: `not any([...])` over the five
fields other than `charset`, with Python truthiness (None and "" are falsy). -/
def is_empty (s : StreamInfo) : Bool :=
  ¬ (truthy s.mimetype ∨ truthy s.extension ∨ truthy s.filename ∨
     truthy s.local_path ∨ truthy s.url)

/-- `stream_info.py` lines 31-40, `__str__`: lists the truthy mimetype,
extension and filename. -/
def pyStr (s : StreamInfo) : String :=
  let parts :=
    (if truthy s.mimetype then ["mimetype=" ++ s.mimetype.getD ""] else []) ++
    (if truthy s.extension then ["ext=" ++ s.extension.getD ""] else []) ++
    (if truthy s.filename then ["filename=" ++ s.filename.getD ""] else [])
  "StreamInfo(" ++ String.intercalate ", " parts ++ ")"

/-- Python `repr` of an `Optional[str]`: `None`, or the string in single
quotes (no escaping needed for the strings occurring here). -/
def reprOptStr (o : Option String) : String :=
  match o with
  | none => "None"
  | some s => "\x27" ++ s ++ "\x27"

/-- The dataclass-generated `__repr__` of `StreamInfo` (the class defines
`__str__` but not `__repr__`, so `@dataclass` supplies the field-by-field
repr); this is what Python renders inside the failed-attempts list. -/
def pyRepr (s : StreamInfo) : String :=
  "StreamInfo(mimetype=" ++ reprOptStr s.mimetype ++
  ", extension=" ++ reprOptStr s.extension ++
  ", charset=" ++ reprOptStr s.charset ++
  ", filename=" ++ reprOptStr s.filename ++
  ", local_path=" ++ reprOptStr s.local_path ++
  ", url=" ++ reprOptStr s.url ++ ")"

end StreamInfo

/-- C8 counterexample input: two descriptors agreeing on mimetype and
extension but differing in filename (both are fixed points of `postInit`). -/
def siFileA : StreamInfo :=
  StreamInfo.postInit { mimetype := some "text/plain", extension := some ".txt",
                        filename := some "a.txt" }

/-- Second C8 counterexample input, differing from `siFileA` only in the
filename field. -/
def siFileB : StreamInfo :=
  StreamInfo.postInit { mimetype := some "text/plain", extension := some ".txt",
                        filename := some "b.txt" }

/-- C8, counterexample: the claim says two `StreamInfo` values compare equal
exactly when mimetype and extension agree, regardless of the remaining fields;
but `__eq__` also compares `filename`, so these two descriptors with equal
mimetype and extension compare unequal. -/
theorem streaminfo_eq_filename_counterexample :
    siFileA.mimetype = siFileB.mimetype ∧ siFileA.extension = siFileB.extension ∧
    StreamInfo.pyEq siFileA siFileB = false := by
  decide

/-- C8, amended: `StreamInfo.__eq__` compares exactly the mimetype, extension
and filename fields — two values are equal iff all three agree — and is
independent of charset, local path and URL. -/
theorem streaminfo_eq_amended :
    ∀ a b : StreamInfo,
      (StreamInfo.pyEq a b = true ↔
        (a.mimetype = b.mimetype ∧ a.extension = b.extension ∧
         a.filename = b.filename)) ∧
      (∀ c lp u c2 lp2 u2,
        StreamInfo.pyEq { a with charset := c, local_path := lp, url := u }
          { b with charset := c2, local_path := lp2, url := u2 } =
        StreamInfo.pyEq a b) := by
  intro a b
  constructor
  · simp [StreamInfo.pyEq]
  · intro c lp u c2 lp2 u2
    simp [StreamInfo.pyEq]

/-- C10 counterexample input: a descriptor whose mimetype is present but the
empty string (Python-falsy). -/
def siEmptyMime : StreamInfo :=
  StreamInfo.postInit { mimetype := some "" }

/-- C10, counterexample: the claim says `is_empty` is true exactly when
mimetype, extension, filename, local_path and url are all unset; but a
descriptor whose mimetype is set to the empty string is still reported empty,
because Python truthiness treats `""` like `None`. -/
theorem is_empty_empty_string_counterexample :
    StreamInfo.is_empty siEmptyMime = true ∧ siEmptyMime.mimetype ≠ none := by
  decide

/-- C10, amended: `is_empty` is independent of the charset field and returns
true exactly when mimetype, extension, filename, local_path and url are each
`None` or the empty string (Python-falsy); in particular a descriptor carrying
only a character encoding is reported empty. -/
theorem is_empty_amended :
    ∀ s : StreamInfo,
      (StreamInfo.is_empty s = true ↔
        (truthy s.mimetype = false ∧ truthy s.extension = false ∧
         truthy s.filename = false ∧ truthy s.local_path = false ∧
         truthy s.url = false)) ∧
      (∀ c, StreamInfo.is_empty { s with charset := c } =
            StreamInfo.is_empty s) := by
  intro s
  constructor
  · simp [StreamInfo.is_empty]
  · intro c
    simp [StreamInfo.is_empty]

/-! ## File-type detector (`voidlight_markitdown_mcp/utils/file_detector.py`) -/

/-- `file_detector.py` lines 27-66: the extension-to-MIME-type table, as the
key/value pairs of the dict literal, in source order. -/
def extension_mapping_pairs : List (String × String) :=
  [(".pdf", "application/pdf"),
   (".docx", "application/vnd.openxmlformats-officedocument.wordprocessingml.document"),
   (".doc", "application/msword"),
   (".pptx", "application/vnd.openxmlformats-officedocument.presentationml.presentation"),
   (".ppt", "application/vnd.ms-powerpoint"),
   (".xlsx", "application/vnd.openxmlformats-officedocument.spreadsheetml.sheet"),
   (".xls", "application/vnd.ms-excel"),
   (".jpg", "image/jpeg"),
   (".jpeg", "image/jpeg"),
   (".png", "image/png"),
   (".gif", "image/gif"),
   (".bmp", "image/bmp"),
   (".tiff", "image/tiff"),
   (".webp", "image/webp"),
   (".mp3", "audio/mpeg"),
   (".wav", "audio/wav"),
   (".m4a", "audio/mp4"),
   (".flac", "audio/flac"),
   (".ogg", "audio/ogg"),
   (".html", "text/html"),
   (".htm", "text/html"),
   (".xml", "application/xml"),
   (".json", "application/json"),
   (".csv", "text/csv"),
   (".txt", "text/plain"),
   (".md", "text/markdown"),
   (".rtf", "application/rtf"),
   (".epub", "application/epub+zip"),
   (".zip", "application/zip"),
   (".tar", "application/x-tar"),
   (".gz", "application/gzip"),
   (".7z", "application/x-7z-compressed"),
   (".rar", "application/x-rar-compressed"),
   (".msg", "application/vnd.ms-outlook"),
   (".eml", "message/rfc822"),
   (".ipynb", "application/x-ipynb+json"),
   (".hwp", "application/haansofthwp"),
   (".hwpx", "application/haansofthwp")]

/-- Python `dict` insertion: overwrite in place when the key exists, else
append (insertion order is preserved). -/
def dictInsert (d : List (String × String)) (k v : String) :
    List (String × String) :=
  if d.any (fun p => p.1 = k) then
    d.map (fun p => if p.1 = k then (k, v) else p)
  else d ++ [(k, v)]

/-- Build a Python dict from a sequence of key/value pairs. -/
def dictOfPairs (ps : List (String × String)) : List (String × String) :=
  ps.foldl (fun d kv => dictInsert d kv.1 kv.2) []

/-- Python `dict.get`. -/
def dictGet? (d : List (String × String)) (k : String) : Option String :=
  (d.find? (fun p => p.1 = k)).map (fun p => p.2)

/-- `file_detector.py` line 27: `self.extension_mapping` (keys are unique, so
this equals the pair list). -/
def extension_mapping : List (String × String) :=
  dictOfPairs extension_mapping_pairs

/-- `file_detector.py` line 69: `self.mimetype_mapping = {v: k for k, v in
self.extension_mapping.items()}` — duplicate MIME values are overwritten, so
each MIME type maps to the LAST extension carrying it in the table
(`image/jpeg` → `.jpeg`, `text/html` → `.htm`, `application/haansofthwp` →
`.hwpx`). -/
def mimetype_mapping : List (String × String) :=
  extension_mapping.foldl (fun d kv => dictInsert d kv.2 kv.1) []

/-- `file_detector.py` lines 122-136, `detect_from_extension`: dot-prefix and
lower-case the extension, then look it up in the extension table. -/
def detect_from_extension (extension : String) : Option StreamInfo :=
  let extension := if ¬ pyStartsWith extension "." then "." ++ extension
                   else extension
  let extension := pyLower extension
  match dictGet? extension_mapping extension with
  | some mimetype =>
      some (StreamInfo.postInit
        { mimetype := some mimetype, extension := some extension })
  | none => none

/-- `mime.split('/')[0]`: the part before the first slash. -/
def primaryType (m : String) : String :=
  (m.data.takeWhile (fun c => c ≠ '/')).asString

/-- `file_detector.py` lines 138-156, `detect_from_mimetype`: exact table
lookup, else the first table entry whose primary type prefixes the query, else
a descriptor carrying only the MIME type.  (The Python return annotation is
`Optional[StreamInfo]` but every branch returns a descriptor.) -/
def detect_from_mimetype (mimetype : String) : Option StreamInfo :=
  let extension := dictGet? mimetype_mapping mimetype
  if truthy extension then
    some (StreamInfo.postInit
      { mimetype := some mimetype, extension := extension })
  else
    match mimetype_mapping.find?
        (fun p => pyStartsWith mimetype (primaryType p.1)) with
    | some p =>
        some (StreamInfo.postInit
          { mimetype := some mimetype, extension := some p.2 })
    | none => some (StreamInfo.postInit { mimetype := some mimetype })

/-- C2, counterexample: `.jpg` maps to `image/jpeg` in the table, and
`detect_from_extension ".jpg"` returns that MIME type, but the reverse lookup
`detect_from_mimetype "image/jpeg"` returns extension `.jpeg`, not the
original `.jpg` — the reverse dict kept the last of the two keys sharing the
value. -/
theorem detect_roundtrip_counterexample_jpg :
    dictGet? extension_mapping ".jpg" = some "image/jpeg" ∧
    (detect_from_extension ".jpg").map (fun si => si.mimetype) =
      some (some "image/jpeg") ∧
    (detect_from_mimetype "image/jpeg").map (fun si => si.extension) =
      some (some ".jpeg") ∧
    (".jpeg" : String) ≠ ".jpg" := by
  decide

/-- C2, amended: for every extension key in the table,
`detect_from_extension` returns a descriptor whose mimetype is the table's
mapped MIME type (and whose extension is the key), and `detect_from_mimetype`
on that MIME type returns a descriptor whose extension also maps to the same
MIME type in the table — namely the last key carrying that value, which equals
the original extension except for `.jpg`, `.html` and `.hwp`, which come back
as `.jpeg`, `.htm` and `.hwpx` respectively. -/
theorem detect_extension_mimetype_roundtrip_amended :
    extension_mapping_pairs.all (fun kv =>
      (detect_from_extension kv.1 =
        some (StreamInfo.postInit
          { mimetype := some kv.2, extension := some kv.1 })) &&
      (match detect_from_mimetype kv.2 with
       | some si =>
          (si.mimetype = some kv.2) &&
          (match si.extension with
           | some e =>
              extension_mapping_pairs.contains (e, kv.2) &&
              (if kv.1 = ".jpg" then e = ".jpeg"
               else if kv.1 = ".html" then e = ".htm"
               else if kv.1 = ".hwp" then e = ".hwpx"
               else e = kv.1)
           | none => false)
       | none => false)) = true := by
  decide

/-! ## Converter registry (`voidlight_markitdown_mcp/core/markitdown.py`) -/

/-- `markitdown.py` lines 24-28, `ConverterRegistration`: a converter paired
with its priority.  The converter instance is represented by its class name;
Python float priorities are embedded as rationals (only order comparisons of
exactly representable literals occur). -/
structure ConverterRegistration where
  name : String
  priority : Rat
deriving Repr, DecidableEq

/-- `markitdown.py` lines 145-161, `register_converter`: the loop scans for
the first existing entry with strictly greater priority and inserts the new
registration there, else appends (for an empty registry the loop body never
runs and `insert_pos` stays 0). -/
def register_converter (l : List ConverterRegistration)
    (r : ConverterRegistration) : List ConverterRegistration :=
  match l with
  | [] => [r]
  | x :: xs =>
      if x.priority > r.priority then r :: x :: xs
      else x :: register_converter xs r

/-- The registry is sorted by ascending priority. -/
def sortedByPriority (l : List ConverterRegistration) : Prop :=
  l.Pairwise (fun a b => a.priority ≤ b.priority)

/-- `markitdown.py` lines 74-130, `_register_converters`: the built-in
startup sequence registers Text (10.0), PDF (0.0), DOCX (0.1), Image (1.0),
HTML (2.0), Audio (3.0), in that order. -/
def builtinRegistry : List ConverterRegistration :=
  [⟨"TextConverter", 10.0⟩, ⟨"PdfConverter", 0.0⟩, ⟨"DocxConverter", 0.1⟩,
   ⟨"ImageConverter", 1.0⟩, ⟨"HtmlConverter", 2.0⟩,
   ⟨"AudioConverter", 3.0⟩].foldl register_converter []

/-- Helper: an element of the updated registry is the new registration or was
already registered. -/
theorem mem_register_converter :
    ∀ {l : List ConverterRegistration} {r y : ConverterRegistration},
      y ∈ register_converter l r → y = r ∨ y ∈ l := by
  intro l
  induction l with
  | nil =>
      intro r y h
      simpa [register_converter] using h
  | cons x xs ih =>
      intro r y h
      by_cases hc : x.priority > r.priority
      · rw [register_converter, if_pos hc] at h
        rcases List.mem_cons.mp h with h | h
        · exact Or.inl h
        · exact Or.inr h
      · rw [register_converter, if_neg hc] at h
        rcases List.mem_cons.mp h with h | h
        · exact Or.inr (by simp [h])
        · rcases ih h with h | h
          · exact Or.inl h
          · exact Or.inr (by simp [h])

/-- C5: `register_converter` always places a new registration immediately
before the first existing entry with strictly greater priority, else appends
(so equal priorities keep insertion order — stability), the registry stays
sorted by ascending priority, and the built-in startup sequence
Text 10.0, PDF 0.0, DOCX 0.1, Image 1.0, HTML 2.0, Audio 3.0 yields the final
ordering PDF 0.0, DOCX 0.1, Image 1.0, HTML 2.0, Audio 3.0, Text 10.0. -/
theorem register_converter_spec :
    (∀ (l : List ConverterRegistration) (r : ConverterRegistration),
        register_converter l r =
          l.takeWhile (fun x => x.priority ≤ r.priority) ++
            r :: l.dropWhile (fun x => x.priority ≤ r.priority)) ∧
    (∀ (l : List ConverterRegistration) (r : ConverterRegistration),
        sortedByPriority l → sortedByPriority (register_converter l r)) ∧
    builtinRegistry =
      [⟨"PdfConverter", 0.0⟩, ⟨"DocxConverter", 0.1⟩, ⟨"ImageConverter", 1.0⟩,
       ⟨"HtmlConverter", 2.0⟩, ⟨"AudioConverter", 3.0⟩,
       ⟨"TextConverter", 10.0⟩] := by
  refine ⟨?_, ?_, by norm_num [builtinRegistry, register_converter]⟩
  · intro l r
    induction l with
    | nil => simp [register_converter]
    | cons x xs ih =>
        by_cases hc : x.priority > r.priority
        · have hn : ¬ x.priority ≤ r.priority := not_le_of_lt hc
          simp [register_converter, hc, hn]
        · have hle : x.priority ≤ r.priority := le_of_not_lt hc
          simp [register_converter, hc, hle, ih]
  · intro l r
    induction l with
    | nil =>
        intro _
        simp [register_converter, sortedByPriority]
    | cons x xs ih =>
        intro h
        rw [sortedByPriority, List.pairwise_cons] at h
        by_cases hc : x.priority > r.priority
        · rw [register_converter, if_pos hc]
          rw [sortedByPriority, List.pairwise_cons]
          refine ⟨?_, ?_⟩
          · intro y hy
            rcases List.mem_cons.mp hy with hy | hy
            · exact hy ▸ le_of_lt hc
            · exact le_trans (le_of_lt hc) (h.1 y hy)
          · rw [List.pairwise_cons]
            exact ⟨h.1, h.2⟩
        · rw [register_converter, if_neg hc]
          rw [sortedByPriority, List.pairwise_cons]
          refine ⟨?_, ih h.2⟩
          intro y hy
          rcases mem_register_converter hy with hy | hy
          · subst hy
            exact le_of_not_lt hc
          · exact h.1 y hy

/-- C5 witness: the sortedness part of `register_converter_spec` applied to a
concrete sorted registry. -/
theorem register_converter_spec_witness :
    sortedByPriority [⟨"PdfConverter", 0.0⟩, ⟨"TextConverter", 10.0⟩] ∧
    sortedByPriority
      (register_converter [⟨"PdfConverter", 0.0⟩, ⟨"TextConverter", 10.0⟩]
        ⟨"HtmlConverter", 2.0⟩) := by
  have hs : sortedByPriority [⟨"PdfConverter", 0.0⟩, ⟨"TextConverter", 10.0⟩] := by
    rw [sortedByPriority]
    refine List.Pairwise.cons ?_ (List.pairwise_singleton _ _)
    intro y hy
    rcases List.mem_singleton.mp hy with rfl
    norm_num
  exact ⟨hs, register_converter_spec.2.1 _ _ hs⟩


/-! ## Structural analysis (`core/markitdown.py`, `analyze_structure` helpers) -/

/-- Python `str.split(sep)` for a single-character separator. -/
def splitOnChar (sep : Char) : List Char → List (List Char)
  | [] => [[]]
  | c :: rest =>
      if c = sep then [] :: splitOnChar sep rest
      else
        match splitOnChar sep rest with
        | [] => [[c]]
        | l :: ls => (c :: l) :: ls

/-- `str.count("\\n")` with a LITERAL backslash-n two-character needle — this
is what `markdown[:match.start()].count('\\n')` in `markitdown.py` line 465
counts, because the file writes the doubled escape inside a plain string. -/
def countLitBackslashN : List Char → Nat
  | '\\' :: 'n' :: rest => countLitBackslashN rest + 1
  | _ :: rest => countLitBackslashN rest
  | [] => 0

/-- One extracted heading: level, text, 1-based line number. -/
structure Heading where
  level : Nat
  text : String
  line : Nat
deriving Repr, DecidableEq

/-- The per-line match of the pattern in `markitdown.py` line 459, which the
file writes as the raw string `^(#{1,6})\\s+(.+)$`.  Because the backslash is
doubled inside a raw string, `\\s+` is the regex "a literal backslash, then
one or more letters s", not a whitespace class: a line matches only when it is
1-6 `#` characters, a literal backslash, a run of at least one `s`, and at
least one further character (the greedy `s+` cedes one `s` to `(.+)` when the
line would otherwise end).  Returns the capture groups (level, group-2 text)
on a match. -/
def headingMatch (line : List Char) : Option (Nat × List Char) :=
  let hashes := line.takeWhile (fun c => c = '#')
  let rest := line.dropWhile (fun c => c = '#')
  if 1 ≤ hashes.length ∧ hashes.length ≤ 6 then
    match rest with
    | '\\' :: r2 =>
        let ss := r2.takeWhile (fun c => c = 's')
        let r3 := r2.dropWhile (fun c => c = 's')
        if ss.length = 0 then none
        else if r3 ≠ [] then some (hashes.length, r3)
        else if 2 ≤ ss.length then some (hashes.length, ['s'])
        else none
    | _ => none
  else none

/-- `markitdown.py` lines 454-468, `_extract_headings`: iterate the (multiline)
pattern over the text line by line; the recorded line number is
`markdown[:match.start()].count('\\n') + 1` with the literal two-character
needle, reproduced here by carrying the text preceding the current line. -/
def extractHeadingsAux : List (List Char) → List Char → List Heading
  | [], _ => []
  | line :: rest, pre =>
      let tail := extractHeadingsAux rest (pre ++ line ++ ['\n'])
      match headingMatch line with
      | some lt =>
          ⟨lt.1, (pyStripChars lt.2).asString, countLitBackslashN pre + 1⟩ :: tail
      | none => tail

/-- `MarkItDown._extract_headings` on a markdown string. -/
def extract_headings (markdown : String) : List Heading :=
  extractHeadingsAux (splitOnChar '\n' markdown.data) []

/-- Modelled from the spec: the heading extraction `analyze_structure`
promises — "a heading list (level, text, 1-based line number) parsed from ATX
markers", i.e. the single-backslash reading `^(#{1,6})\s+(.+)$` of the same
pattern: 1-6 `#`, at least one whitespace character, then the heading text. -/
def headingMatchIntended (line : List Char) : Option (Nat × List Char) :=
  let hashes := line.takeWhile (fun c => c = '#')
  let rest := line.dropWhile (fun c => c = '#')
  if 1 ≤ hashes.length ∧ hashes.length ≤ 6 then
    let ws := rest.takeWhile isPySpace
    let r2 := rest.dropWhile isPySpace
    if 1 ≤ ws.length ∧ r2 ≠ [] then some (hashes.length, r2) else none
  else none

/-- Modelled from the spec: intended `_extract_headings`, with real 1-based
line numbers. -/
def extractHeadingsIntendedAux : List (List Char) → Nat → List Heading
  | [], _ => []
  | line :: rest, n =>
      let tail := extractHeadingsIntendedAux rest (n + 1)
      match headingMatchIntended line with
      | some lt => ⟨lt.1, (pyStripChars lt.2).asString, n⟩ :: tail
      | none => tail

/-- Modelled from the spec: intended heading extraction over a document. -/
def extract_headings_intended (markdown : String) : List Heading :=
  extractHeadingsIntendedAux (splitOnChar '\n' markdown.data) 1

/-- C1 failing input: a Markdown document with six ATX headings, three image
references, and a two-column pipe table with header, separator and two data
rows. -/
def specDocument : String :=
  "# H1\n## H2\n### H3\n#### H4\n##### H5\n###### H6\n\n" ++
  "![a](u1)\n![b](u2)\n![c](u3)\n\n" ++
  "| A | B |\n| --- | --- |\n| 1 | 2 |\n| 3 | 4 |"

/-- C1: on the document above, the intended ATX extraction finds the six
headings with their levels and 1-based line numbers, but the code's
`_extract_headings` — whose pattern demands a literal backslash followed by
`s` after the `#` run — extracts nothing.  (In the same function chain,
`_extract_images`' pattern `!\\[([^\\]]*)\\]\\(([^\\)]+)\\)` does not even
compile: Python raises `re.error: unbalanced parenthesis`, so
`analyze_structure` raises instead of reporting images and tables.) -/
theorem extract_headings_on_spec_document_empty :
    (extract_headings_intended specDocument).map
        (fun h => (h.level, h.text, h.line)) =
      [(1, "H1", 1), (2, "H2", 2), (3, "H3", 3), (4, "H4", 4), (5, "H5", 5),
       (6, "H6", 6)] ∧
    extract_headings specDocument = [] := by
  exact ⟨rfl, rfl⟩

/-! ## Audio converter temporary files (`converters/audio_converter.py`) -/

/-- The capability flags probed by `audio_converter.py` lines 40-58,
`_check_dependencies`. -/
structure AudioDeps where
  whisper_available : Bool
  openai_available : Bool
  pydub_available : Bool
deriving Repr, DecidableEq

/-- The temporary files a single `AudioConverter.convert` call can own: the
`NamedTemporaryFile` materialized from the stream, and the optional
`*_converted.wav` re-encoded copy. -/
structure AudioTempFiles where
  tmpExists : Bool
  wavExists : Bool
deriving Repr, DecidableEq

/-- What `_prepare_audio` returned: the original temporary path, or the
distinct re-encoded wav path. -/
inductive PrepareOutcome
  | samePath
  | wavPath
deriving Repr, DecidableEq

/-- `audio_converter.py` lines 115-153, `_prepare_audio`: `.mp3`/`.wav` with
local whisper available short-circuit to the original path; without pydub the
original path is returned; otherwise the audio is re-encoded to a
`*_converted.wav` copy, falling back to the original path if loading or
exporting raises (the whole pydub block is wrapped in try/except).  The
export either produces the wav file and returns its path, or fails producing
nothing. -/
def prepare_audio (deps : AudioDeps) (extension : String)
    (exportSucceeds : Bool) (fs : AudioTempFiles) :
    PrepareOutcome × AudioTempFiles :=
  if (extension = ".mp3" ∨ extension = ".wav") ∧ deps.whisper_available then
    (.samePath, fs)
  else if ¬ deps.pydub_available then
    (.samePath, fs)
  else if exportSucceeds then
    (.wavPath, { fs with wavExists := true })
  else
    (.samePath, fs)

/-- `audio_converter.py` lines 103-110, the `finally` block: try to unlink the
temporary file, then — when `_prepare_audio` returned a distinct path — unlink
the re-encoded copy; an `OSError` from the first unlink skips the second, and
any `OSError` is swallowed. -/
def cleanup_temp_files (prep : PrepareOutcome) (fs : AudioTempFiles) :
    AudioTempFiles :=
  if fs.tmpExists then
    let fs1 := { fs with tmpExists := false }
    match prep with
    | .samePath => fs1
    | .wavPath => { fs1 with wavExists := false }
  else fs

/-- The outcome of `AudioConverter.convert`. -/
inductive AudioOutcome
  | success
  | missingDependency
  | conversionFailed
deriving Repr, DecidableEq

/-- `audio_converter.py` lines 65-113, `AudioConverter.convert`, tracking the
temporary files: raise MissingDependency before any file is created when
neither whisper nor the OpenAI API is available; otherwise materialize the
stream to a `NamedTemporaryFile` (suffix `stream_info.extension or '.mp3'`),
run `_prepare_audio`, then transcription/metadata/markdown assembly — whose
helpers swallow their own library failures; `innerRaises` models any exception
nevertheless escaping one of those steps inside the inner `try` — and in all
cases run the `finally` cleanup; an inner exception is re-raised as
FileConversionException by the outer `except`. -/
def audio_convert_fs (deps : AudioDeps) (extension? : Option String)
    (exportSucceeds innerRaises : Bool) : AudioOutcome × AudioTempFiles :=
  let fs0 : AudioTempFiles := ⟨false, false⟩
  if ¬ (deps.whisper_available ∨ deps.openai_available) then
    (.missingDependency, fs0)
  else
    let fs1 : AudioTempFiles := ⟨true, false⟩
    let ext := if truthy extension? then extension?.getD "" else ".mp3"
    let pfs := prepare_audio deps ext exportSucceeds fs1
    let fs3 := cleanup_temp_files pfs.1 pfs.2
    if innerRaises then (.conversionFailed, fs3) else (.success, fs3)

/-- C9: on every exit path of `AudioConverter.convert` — successful
conversion, an exception escaping the transcription/metadata steps, or a
re-encoding skip — both the temporary file created from the input stream and
the re-encoded copy (when `_prepare_audio` produced one) are removed before
the call returns or raises. -/
theorem audio_convert_cleanup :
    ∀ (deps : AudioDeps) (extension? : Option String)
      (exportSucceeds innerRaises : Bool),
      (audio_convert_fs deps extension? exportSucceeds innerRaises).2 =
        ⟨false, false⟩ := by
  intro deps ext es ir
  rcases deps with ⟨w, o, p⟩
  cases w <;> cases o <;> cases p <;> cases es <;> cases ir <;>
    simp [audio_convert_fs, prepare_audio, cleanup_temp_files] <;>
    split_ifs <;> simp_all


/-! ## Whitespace normalization (`utils/format_utils.py`, `normalize_whitespace`)

`normalize_whitespace` (lines 34-48) applies, in order,
`re.sub(r'[ \t]+', ' ', text)`, `re.sub(r'\n\s*\n\s*\n+', '\n\n', text)` and
`text.strip()`, after an early `""` return for falsy input.  The two
substitutions are embedded below by their leftmost/greedy compiled behavior:

* `[ \t]+`: every maximal run of spaces and tabs becomes one space.
* `\n\s*\n\s*\n+`: a match starts at a newline whose maximal whitespace run
  contains at least three newlines, and the greedy groups extend the match
  exactly to the run's last newline (the first `\s*` absorbs everything up to
  the second-to-last newline); the match is replaced by two newlines, and
  scanning resumes after it — where no further newline of that run remains.
  Net effect, run by run: in each maximal whitespace run with three or more
  newlines, the span from its first to its last newline collapses to `"\n\n"`.
  (This reading was checked exhaustively against CPython `re.sub` on all
  strings of length ≤ 7 over the alphabet `{a, space, tab, \n, \r}`.)
-/

/-- The character class `[ \t]`. -/
def isSpaceTab (c : Char) : Bool :=
  c = ' ' ∨ c = '\t'

/-- `re.sub(r'[ \t]+', ' ', ·)`, scanning left to right; the flag records
whether the scan is inside a space/tab run whose single `' '` was already
emitted. -/
def collapseSpaceTabAux : Bool → List Char → List Char
  | _, [] => []
  | inRun, c :: rest =>
      if isSpaceTab c then
        if inRun then collapseSpaceTabAux true rest
        else ' ' :: collapseSpaceTabAux true rest
      else c :: collapseSpaceTabAux false rest

/-- `re.sub(r'[ \t]+', ' ', text)`. -/
def collapseSpaceTab (l : List Char) : List Char :=
  collapseSpaceTabAux false l

/-- The replacement of `re.sub(r'\n\s*\n\s*\n+', '\n\n', ·)` on one maximal
whitespace run: with at least three newlines, the span from the run's first
to its last newline becomes two newlines; otherwise the run is unchanged. -/
def nlTransformRun (run : List Char) : List Char :=
  if 3 ≤ run.count '\n' then
    (run.takeWhile (fun d => d ≠ '\n')) ++ '\n' :: '\n' ::
      (run.reverse.takeWhile (fun d => d ≠ '\n')).reverse
  else run

/-- `re.sub(r'\n\s*\n\s*\n+', '\n\n', ·)`: scan the text, accumulating the
current maximal whitespace run (reversed) and transforming it when it ends. -/
def collapseNlAux : List Char → List Char → List Char
  | acc, [] => nlTransformRun acc.reverse
  | acc, c :: rest =>
      if isPySpace c then collapseNlAux (c :: acc) rest
      else nlTransformRun acc.reverse ++ c :: collapseNlAux [] rest

/-- `re.sub(r'\n\s*\n\s*\n+', '\n\n', text)`. -/
def collapseNl (l : List Char) : List Char :=
  collapseNlAux [] l

/-- `format_utils.py` lines 34-48, `normalize_whitespace`. -/
def normalize_whitespace (text : String) : String :=
  if text = "" then ""
  else (pyStripChars (collapseNl (collapseSpaceTab text.data))).asString

/-- No maximal whitespace run of the text contains three or more newlines
(equivalently, the second substitution has no match): scanning form, with the
reversed current run as accumulator. -/
def runsOkAux : List Char → List Char → Bool
  | acc, [] => acc.count '\n' ≤ 2
  | acc, c :: rest =>
      if isPySpace c then runsOkAux (c :: acc) rest
      else (acc.count '\n' ≤ 2) && runsOkAux [] rest

/-- Every maximal whitespace run has at most two newlines. -/
def runsOk (l : List Char) : Bool :=
  runsOkAux [] l

/-- The text contains three consecutive newline characters somewhere. -/
def hasTripleNewline : List Char → Bool
  | [] => false
  | c :: rest => (c = '\n' ∧ listIsPre ['\n', '\n'] rest) || hasTripleNewline rest

/-- No tab characters (one half of the first substitution being a no-op). -/
def noTab (l : List Char) : Prop :=
  ∀ x ∈ l, x ≠ '\t'

/-- No two adjacent spaces (the other half). -/
def noDS (l : List Char) : Prop :=
  l.Chain' (fun a b => ¬ (a = ' ' ∧ b = ' '))

/-- Neither edge of the text is Python whitespace (`strip` is a no-op). -/
def noEdgeSpace (l : List Char) : Bool :=
  (match l.head? with | some c => ¬ isPySpace c | none => true) &&
  (match l.getLast? with | some c => ¬ isPySpace c | none => true)


theorem runsOkAux_mono : ∀ {l acc acc2 : List Char},
    runsOkAux acc l = true → acc2.count '\n' ≤ acc.count '\n' →
    runsOkAux acc2 l = true := by
  intro l
  induction l with
  | nil =>
      intro acc acc2 h hle
      simp only [runsOkAux, decide_eq_true_eq] at h ⊢
      omega
  | cons c rest ih =>
      intro acc acc2 h hle
      rw [runsOkAux] at h ⊢
      by_cases hc : isPySpace c = true
      · rw [if_pos hc] at h ⊢
        refine ih h ?_
        simp only [List.count_cons]
        omega
      · rw [if_neg hc] at h ⊢
        simp only [Bool.and_eq_true, decide_eq_true_eq] at h ⊢
        exact ⟨le_trans hle h.1, h.2⟩

theorem runsOkAux_ws_append {u : List Char}
    (hu : ∀ x ∈ u, isPySpace x = true) :
    ∀ {acc x : List Char},
      runsOkAux acc (u ++ x) = runsOkAux (u.reverse ++ acc) x := by
  induction u with
  | nil => intro acc x; simp
  | cons c u2 ih =>
      intro acc x
      have hc : isPySpace c = true := hu c (List.mem_cons_self _ _)
      rw [List.cons_append, runsOkAux, if_pos hc,
        ih (fun y hy => hu y (List.mem_cons_of_mem _ hy))]
      simp [List.append_assoc]

theorem runsOkAux_all_ws {w acc : List Char}
    (hw : ∀ x ∈ w, isPySpace x = true) :
    runsOkAux acc w = (decide (acc.count '\n' + w.count '\n' ≤ 2)) := by
  have h := @runsOkAux_ws_append w hw acc []
  rw [List.append_nil] at h
  rw [h]
  simp only [runsOkAux, List.count_append, List.count_reverse]
  rw [Nat.add_comm]

theorem runsOk_of_ws_prefix {u x : List Char}
    (hu : ∀ y ∈ u, isPySpace y = true) (h : runsOk (u ++ x) = true) :
    runsOk x = true := by
  rw [runsOk, runsOkAux_ws_append hu] at h
  exact runsOkAux_mono h (by simp)

theorem runsOkAux_of_append_ws {w : List Char}
    (hw : ∀ y ∈ w, isPySpace y = true) :
    ∀ {m acc : List Char}, runsOkAux acc (m ++ w) = true →
      runsOkAux acc m = true := by
  intro m
  induction m with
  | nil =>
      intro acc h
      rw [List.nil_append, runsOkAux_all_ws hw] at h
      simp only [decide_eq_true_eq] at h
      simp only [runsOkAux, decide_eq_true_eq]
      omega
  | cons c m2 ih =>
      intro acc h
      rw [List.cons_append, runsOkAux] at h
      rw [runsOkAux]
      by_cases hc : isPySpace c = true
      · rw [if_pos hc] at h ⊢
        exact ih h
      · rw [if_neg hc] at h ⊢
        simp only [Bool.and_eq_true] at h ⊢
        exact ⟨h.1, ih h.2⟩

theorem runsOkAux_false_of_three {acc : List Char}
    (h3 : 3 ≤ acc.count '\n') : ∀ l, runsOkAux acc l = false := by
  intro l
  induction l generalizing acc with
  | nil =>
      simp only [runsOkAux, decide_eq_false_iff_not]
      omega
  | cons c rest ih =>
      rw [runsOkAux]
      by_cases hc : isPySpace c = true
      · rw [if_pos hc]
        refine ih ?_
        simp only [List.count_cons]
        omega
      · rw [if_neg hc]
        have : (decide (acc.count '\n' ≤ 2)) = false := by
          simp only [decide_eq_false_iff_not]
          omega
        simp [this]

theorem hasTriple_false_of_runsOk :
    ∀ {l acc : List Char}, runsOkAux acc l = true →
      hasTripleNewline l = false := by
  intro l
  induction l with
  | nil => intro acc _; rfl
  | cons c rest ih =>
      intro acc h
      rw [runsOkAux] at h
      rw [hasTripleNewline]
      by_cases hc : isPySpace c = true
      · rw [if_pos hc] at h
        have htail : hasTripleNewline rest = false := ih h
        rw [htail, Bool.or_false]
        by_cases htrip : c = '\n' ∧ listIsPre ['\n', '\n'] rest = true
        · exfalso
          obtain ⟨rfl, hpre⟩ := htrip
          rcases rest with _ | ⟨d1, rest1⟩
          · simp [listIsPre] at hpre
          rcases rest1 with _ | ⟨d2, t⟩
          · simp [listIsPre] at hpre
          simp only [listIsPre, Bool.and_eq_true, decide_eq_true_eq] at hpre
          obtain ⟨h1, h2, -⟩ := hpre
          subst h1
          subst h2
          rw [runsOkAux, if_pos (by decide)] at h
          rw [runsOkAux, if_pos (by decide)] at h
          rw [runsOkAux_false_of_three (by simp [List.count_cons])] at h
          cases h
        · simp only [decide_eq_false_iff_not]
          exact htrip
      · rw [if_neg hc] at h
        simp only [Bool.and_eq_true] at h
        have htail : hasTripleNewline rest = false := ih h.2
        rw [htail, Bool.or_false]
        have hcn : ¬ c = '\n' := by
          intro hcc
          subst hcc
          exact hc (by decide)
        simp [hcn]

theorem collapseSpaceTabAux_head :
    ∀ (l : List Char) (d : Char),
      (collapseSpaceTabAux true l).head? = some d → isSpaceTab d = false := by
  intro l
  induction l with
  | nil => intro d h; cases h
  | cons c rest ih =>
      intro d h
      rw [collapseSpaceTabAux] at h
      by_cases hc : isSpaceTab c = true
      · rw [if_pos hc, if_pos rfl] at h
        exact ih d h
      · rw [if_neg hc] at h
        simp only [List.head?_cons, Option.some.injEq] at h
        subst h
        simpa using hc

theorem collapseSpaceTabAux_id :
    ∀ {l : List Char}, noTab l → noDS l →
      collapseSpaceTabAux false l = l ∧
      ((∀ d, l.head? = some d → isSpaceTab d = false) →
        collapseSpaceTabAux true l = l) := by
  intro l
  induction l with
  | nil => intro _ _; exact ⟨rfl, fun _ => rfl⟩
  | cons c rest ih =>
      intro h1 h2
      have hct : c ≠ '\t' := h1 c (List.mem_cons_self _ _)
      have h1r : noTab rest := fun x hx => h1 x (List.mem_cons_of_mem _ hx)
      rw [noDS, List.chain'_cons'] at h2
      have h2r : noDS rest := h2.2
      have ihr := ih h1r h2r
      constructor
      · rw [collapseSpaceTabAux]
        by_cases hc : isSpaceTab c = true
        · rw [if_pos hc, if_neg (by simp)]
          have hcsp : c = ' ' := by
            rcases (by simpa [isSpaceTab] using hc : c = ' ' ∨ c = '\t') with
              h | h
            · exact h
            · exact absurd h hct
          subst hcsp
          rw [ihr.2 ?_]
          intro d hd
          have hR := h2.1 d hd
          have hd2 : d ≠ ' ' := fun hds => hR ⟨rfl, hds⟩
          have hd3 : d ≠ '\t' := by
            rcases List.head?_eq_some_iff.mp hd with ⟨t, rfl⟩
            exact h1r d (List.mem_cons_self _ _)
          simp [isSpaceTab, hd2, hd3]
        · rw [if_neg hc, ihr.1]
      · intro hh
        rw [collapseSpaceTabAux]
        have hc : isSpaceTab c = false := hh c rfl
        rw [if_neg (by simp [hc]), ihr.1]

theorem collapseSpaceTabAux_noTab :
    ∀ (l : List Char) (flag : Bool), noTab (collapseSpaceTabAux flag l) := by
  intro l
  induction l with
  | nil => intro flag x hx; cases hx
  | cons c rest ih =>
      intro flag x hx
      rw [collapseSpaceTabAux] at hx
      by_cases hc : isSpaceTab c = true
      · rw [if_pos hc] at hx
        cases flag with
        | true =>
            rw [if_pos rfl] at hx
            exact ih true x hx
        | false =>
            rw [if_neg (by simp)] at hx
            rcases List.mem_cons.mp hx with rfl | hx2
            · decide
            · exact ih true x hx2
      · rw [if_neg hc] at hx
        rcases List.mem_cons.mp hx with rfl | hx2
        · intro hxx
          subst hxx
          simp [isSpaceTab] at hc
        · exact ih false x hx2

theorem collapseSpaceTabAux_noDS :
    ∀ (l : List Char) (flag : Bool), noDS (collapseSpaceTabAux flag l) := by
  intro l
  induction l with
  | nil => intro flag; rw [collapseSpaceTabAux]; exact List.chain'_nil
  | cons c rest ih =>
      intro flag
      rw [collapseSpaceTabAux]
      by_cases hc : isSpaceTab c = true
      · rw [if_pos hc]
        cases flag with
        | true => rw [if_pos rfl]; exact ih true
        | false =>
            rw [if_neg (by simp)]
            rw [noDS, List.chain'_cons']
            refine ⟨?_, ih true⟩
            intro d hd
            have := collapseSpaceTabAux_head rest d hd
            intro hpair
            rw [hpair.2] at this
            simp [isSpaceTab] at this
      · rw [if_neg hc]
        rw [noDS, List.chain'_cons']
        refine ⟨?_, ih false⟩
        intro d _
        intro hpair
        rw [hpair.1] at hc
        simp [isSpaceTab] at hc

theorem nlTransformRun_count (r : List Char) :
    (nlTransformRun r).count '\n' ≤ 2 := by
  rw [nlTransformRun]
  by_cases h : 3 ≤ r.count '\n'
  · rw [if_pos h]
    have h1 : (r.takeWhile (fun d => d ≠ '\n')).count '\n' = 0 := by
      rw [List.count_eq_zero]
      intro hmem
      have := List.mem_takeWhile_imp hmem
      simp at this
    have h2 : ((r.reverse.takeWhile (fun d => d ≠ '\n')).reverse).count '\n' = 0 := by
      rw [List.count_reverse, List.count_eq_zero]
      intro hmem
      have := List.mem_takeWhile_imp hmem
      simp at this
    rw [List.count_append, List.count_cons_self, List.count_cons_self, h1, h2]
  · rw [if_neg h]
    omega

theorem nlTransformRun_mem {r : List Char} {x : Char}
    (hx : x ∈ nlTransformRun r) : x ∈ r ∨ x = '\n' := by
  rw [nlTransformRun] at hx
  by_cases h : 3 ≤ r.count '\n'
  · rw [if_pos h] at hx
    rcases List.mem_append.mp hx with hx | hx
    · exact Or.inl ((List.takeWhile_sublist _).subset hx)
    · rcases List.mem_cons.mp hx with rfl | hx
      · exact Or.inr rfl
      · rcases List.mem_cons.mp hx with rfl | hx
        · exact Or.inr rfl
        · rw [List.mem_reverse] at hx
          exact Or.inl (by
            simpa using (List.takeWhile_sublist _).subset hx)
  · rw [if_neg h] at hx
    exact Or.inl hx

theorem nlTransformRun_ws {r : List Char}
    (hr : ∀ x ∈ r, isPySpace x = true) :
    ∀ x ∈ nlTransformRun r, isPySpace x = true := by
  intro x hx
  rcases nlTransformRun_mem hx with h | rfl
  · exact hr x h
  · decide


theorem collapseNlAux_id :
    ∀ {l acc : List Char}, runsOkAux acc l = true →
      collapseNlAux acc l = acc.reverse ++ l := by
  intro l
  induction l with
  | nil =>
      intro acc h
      simp only [runsOkAux, decide_eq_true_eq] at h
      rw [collapseNlAux, nlTransformRun,
        if_neg (by rw [List.count_reverse]; omega), List.append_nil]
  | cons c rest ih =>
      intro acc h
      rw [runsOkAux] at h
      rw [collapseNlAux]
      by_cases hc : isPySpace c = true
      · rw [if_pos hc] at h
        rw [if_pos hc, ih h]
        simp
      · rw [if_neg hc] at h
        simp only [Bool.and_eq_true, decide_eq_true_eq] at h
        rw [if_neg hc, nlTransformRun,
          if_neg (by rw [List.count_reverse]; omega), ih h.2]
        simp

theorem collapseNlAux_runsOk :
    ∀ {l acc : List Char}, (∀ x ∈ acc, isPySpace x = true) →
      runsOk (collapseNlAux acc l) = true := by
  intro l
  induction l with
  | nil =>
      intro acc hacc
      rw [collapseNlAux, runsOk,
        runsOkAux_all_ws (nlTransformRun_ws (by simpa using hacc))]
      have := nlTransformRun_count acc.reverse
      simp only [List.count_nil, decide_eq_true_eq]
      omega
  | cons c rest ih =>
      intro acc hacc
      rw [collapseNlAux]
      by_cases hc : isPySpace c = true
      · rw [if_pos hc]
        refine ih ?_
        intro x hx
        rcases List.mem_cons.mp hx with rfl | hx2
        · exact hc
        · exact hacc x hx2
      · rw [if_neg hc]
        rw [runsOk, runsOkAux_ws_append (nlTransformRun_ws (by simpa using hacc))]
        rw [runsOkAux, if_neg hc]
        have h1 : ((nlTransformRun acc.reverse).reverse ++ ([] : List Char)).count '\n' ≤ 2 := by
          rw [List.append_nil, List.count_reverse]
          exact nlTransformRun_count acc.reverse
        have h2 := @ih [] (by intro x hx; cases hx)
        rw [runsOk] at h2
        simp only [decide_eq_true_eq, Bool.and_eq_true]
        exact ⟨h1, h2⟩

theorem collapseNlAux_mem :
    ∀ {l acc : List Char} {x : Char}, x ∈ collapseNlAux acc l →
      x ∈ acc ∨ x ∈ l ∨ x = '\n' := by
  intro l
  induction l with
  | nil =>
      intro acc x hx
      rw [collapseNlAux] at hx
      rcases nlTransformRun_mem hx with h | rfl
      · exact Or.inl (List.mem_reverse.mp h)
      · exact Or.inr (Or.inr rfl)
  | cons c rest ih =>
      intro acc x hx
      rw [collapseNlAux] at hx
      by_cases hc : isPySpace c = true
      · rw [if_pos hc] at hx
        rcases ih hx with h | h | h
        · rcases List.mem_cons.mp h with rfl | h2
          · exact Or.inr (Or.inl (List.mem_cons_self _ _))
          · exact Or.inl h2
        · exact Or.inr (Or.inl (List.mem_cons_of_mem _ h))
        · exact Or.inr (Or.inr h)
      · rw [if_neg hc] at hx
        rcases List.mem_append.mp hx with h | h
        · rcases nlTransformRun_mem h with h2 | rfl
          · exact Or.inl (List.mem_reverse.mp h2)
          · exact Or.inr (Or.inr rfl)
        · rcases List.mem_cons.mp h with rfl | h2
          · exact Or.inr (Or.inl (List.mem_cons_self _ _))
          · rcases ih h2 with h3 | h3 | h3
            · cases h3
            · exact Or.inr (Or.inl (List.mem_cons_of_mem _ h3))
            · exact Or.inr (Or.inr h3)


theorem nlTransformRun_ne_nil {r : List Char} (hr : r ≠ []) :
    nlTransformRun r ≠ [] := by
  rw [nlTransformRun]
  by_cases h : 3 ≤ r.count '\n'
  · rw [if_pos h]
    intro hcontra
    rcases List.append_eq_nil.mp hcontra with ⟨-, h2⟩
    cases h2
  · rw [if_neg h]
    exact hr

theorem nlTransformRun_head (r : List Char) :
    (nlTransformRun r).head? = r.head? ∨
    (nlTransformRun r).head? = some '\n' := by
  rw [nlTransformRun]
  by_cases h : 3 ≤ r.count '\n'
  · rw [if_pos h]
    rcases r with _ | ⟨c, r2⟩
    · simp at h
    · rw [List.takeWhile_cons]
      by_cases hc : c = '\n'
      · subst hc
        simp
      · simp [hc]
  · rw [if_neg h]
    exact Or.inl rfl

theorem nlTransformRun_last (r : List Char) :
    (nlTransformRun r).getLast? = r.getLast? ∨
    (nlTransformRun r).getLast? = some '\n' := by
  rw [nlTransformRun]
  by_cases h : 3 ≤ r.count '\n'
  · rw [if_pos h]
    rw [← List.head?_reverse, List.reverse_append]
    rw [← List.head?_reverse (l := r)]
    rcases hrev : r.reverse with _ | ⟨c, r2⟩
    · have hrnil : r = [] := List.reverse_eq_nil_iff.mp hrev
      subst hrnil
      simp at h
    · simp only [List.reverse_cons, List.reverse_reverse]
      rw [List.takeWhile_cons]
      by_cases hc : c = '\n'
      · subst hc
        simp
      · simp [hc]
  · rw [if_neg h]
    exact Or.inl rfl

theorem pairNotSpaces_nl_left (x : Char) :
    ¬ (('\n' = ' ') ∧ (x = ' ')) := by
  intro h
  cases h.1

theorem pairNotSpaces_nl_right (x : Char) :
    ¬ ((x = ' ') ∧ ('\n' = ' ')) := by
  intro h
  cases h.2

theorem nlTransformRun_noDS {r : List Char} (h : noDS r) :
    noDS (nlTransformRun r) := by
  rw [nlTransformRun]
  by_cases hcnt : 3 ≤ r.count '\n'
  · rw [if_pos hcnt]
    rw [noDS]
    rw [List.chain'_append]
    refine ⟨?_, ?_, ?_⟩
    · exact h.prefix (List.takeWhile_prefix _)
    · rw [List.chain'_cons']
      refine ⟨fun y _ => pairNotSpaces_nl_left y, ?_⟩
      rw [List.chain'_cons']
      refine ⟨fun y _ => pairNotSpaces_nl_left y, ?_⟩
      rw [List.chain'_reverse]
      have h2 : List.Chain' (flip fun a b => ¬ (a = ' ' ∧ b = ' ')) r.reverse := by
        rw [List.chain'_reverse]
        exact h
      exact h2.prefix (List.takeWhile_prefix _)
    · intro x _ y hy
      simp only [List.head?_cons, Option.mem_def, Option.some.injEq] at hy
      subst hy
      exact pairNotSpaces_nl_right x
  · rw [if_neg hcnt]
    exact h

theorem head?_append_left {l m : List Char} {d : Char}
    (h : l.head? = some d) : (l ++ m).head? = some d := by
  rcases l with _ | ⟨a, l2⟩
  · cases h
  · simpa using h

theorem collapseNlAux_head :
    ∀ {l acc : List Char},
      (collapseNlAux acc l).head? = (acc.reverse ++ l).head? ∨
      (collapseNlAux acc l).head? = some '\n' := by
  intro l
  induction l with
  | nil =>
      intro acc
      rw [collapseNlAux, List.append_nil]
      exact nlTransformRun_head acc.reverse
  | cons c rest ih =>
      intro acc
      rw [collapseNlAux]
      by_cases hc : isPySpace c = true
      · rw [if_pos hc]
        rcases @ih (c :: acc) with h | h
        · rw [h]
          left
          simp
        · exact Or.inr h
      · rw [if_neg hc]
        rcases hacc : acc.reverse with _ | ⟨a, accr⟩
        · left
          simp [nlTransformRun]
        · rcases nlTransformRun_head (a :: accr) with h | h
          · rw [List.head?_cons] at h
            left
            rw [head?_append_left h]
            simp
          · right
            exact head?_append_left h

theorem collapseNlAux_noDS :
    ∀ {l acc : List Char}, (∀ x ∈ acc, isPySpace x = true) →
      noDS (acc.reverse ++ l) → noDS (collapseNlAux acc l) := by
  intro l
  induction l with
  | nil =>
      intro acc _ h
      rw [List.append_nil] at h
      rw [collapseNlAux]
      exact nlTransformRun_noDS h
  | cons c rest ih =>
      intro acc hacc h
      rw [collapseNlAux]
      by_cases hc : isPySpace c = true
      · rw [if_pos hc]
        refine ih ?_ ?_
        · intro x hx
          rcases List.mem_cons.mp hx with rfl | hx2
          · exact hc
          · exact hacc x hx2
        · simpa using h
      · rw [if_neg hc]
        rw [noDS, List.chain'_append]
        have hsplit := List.chain'_append.mp h
        refine ⟨?_, ?_, ?_⟩
        · exact nlTransformRun_noDS hsplit.1
        · rw [List.chain'_cons']
          have hcr := hsplit.2.1
          rw [List.chain'_cons'] at hcr
          refine ⟨?_, ?_⟩
          · intro y hy
            rw [Option.mem_def] at hy
            rcases @collapseNlAux_head rest [] with hh | hh <;>
              rw [hy] at hh
            · refine hcr.1 y ?_
              rw [Option.mem_def]
              simpa using hh.symm
            · simp only [Option.some.injEq] at hh
              subst hh
              exact pairNotSpaces_nl_right c
          · exact ih (by intro x hx; cases hx) (by simpa [noDS] using hcr.2)
        · intro x hx y hy
          simp only [List.head?_cons, Option.mem_def, Option.some.injEq] at hy
          subst hy
          rw [Option.mem_def] at hx
          rcases nlTransformRun_last acc.reverse with hl | hl <;>
            rw [hx] at hl
          · exact hsplit.2.2 x (by rw [Option.mem_def]; exact hl.symm) c (by simp)
          · simp only [Option.some.injEq] at hl
            subst hl
            exact pairNotSpaces_nl_left c

theorem head?_dropWhile_not (p : Char → Bool) :
    ∀ (l : List Char) (d : Char), (l.dropWhile p).head? = some d →
      p d = false := by
  intro l
  induction l with
  | nil => intro d h; cases h
  | cons c rest ih =>
      intro d h
      rw [List.dropWhile_cons] at h
      by_cases hc : p c = true
      · rw [if_pos hc] at h
        exact ih d h
      · rw [if_neg hc] at h
        simp only [List.head?_cons, Option.some.injEq] at h
        subst h
        simpa using hc

theorem dropWhile_eq_self_of_head {p : Char → Bool} {l : List Char}
    (h : ∀ d, l.head? = some d → p d = false) : l.dropWhile p = l := by
  rcases l with _ | ⟨c, rest⟩
  · rfl
  · rw [List.dropWhile_cons, if_neg (by simp [h c rfl])]

theorem getLast?_append_right {l m : List Char} (h : m ≠ []) :
    (l ++ m).getLast? = m.getLast? := by
  rw [← List.head?_reverse, List.reverse_append, ← List.head?_reverse (l := m)]
  rcases hm : m.reverse with _ | ⟨d, mr⟩
  · exact absurd (List.reverse_eq_nil_iff.mp hm) h
  · simp

theorem pyStrip_decomp (l : List Char) :
    ∃ u w, (∀ x ∈ u, isPySpace x = true) ∧ (∀ x ∈ w, isPySpace x = true) ∧
      l = u ++ pyStripChars l ++ w := by
  refine ⟨l.takeWhile isPySpace,
    ((l.dropWhile isPySpace).reverse.takeWhile isPySpace).reverse, ?_, ?_, ?_⟩
  · intro x hx
    exact List.mem_takeWhile_imp hx
  · intro x hx
    rw [List.mem_reverse] at hx
    exact List.mem_takeWhile_imp hx
  · have h2 : l.dropWhile isPySpace =
        pyStripChars l ++
        ((l.dropWhile isPySpace).reverse.takeWhile isPySpace).reverse := by
      show l.dropWhile isPySpace =
        ((l.dropWhile isPySpace).reverse.dropWhile isPySpace).reverse ++
        ((l.dropWhile isPySpace).reverse.takeWhile isPySpace).reverse
      conv_lhs => rw [← List.reverse_reverse (l.dropWhile isPySpace)]
      rw [← List.reverse_append, List.takeWhile_append_dropWhile]
    rw [List.append_assoc, ← h2]
    exact (List.takeWhile_append_dropWhile (p := isPySpace) (l := l)).symm

theorem pyStrip_edges (l : List Char) : noEdgeSpace (pyStripChars l) = true := by
  have hdef : pyStripChars l =
      ((l.dropWhile isPySpace).reverse.dropWhile isPySpace).reverse := rfl
  have hhead : ∀ d, (pyStripChars l).head? = some d → isPySpace d = false := by
    intro d hd
    rw [hdef, List.head?_reverse] at hd
    have hyne : (l.dropWhile isPySpace).reverse.dropWhile isPySpace ≠ [] := by
      intro h0
      rw [h0] at hd
      cases hd
    have h1 : ((l.dropWhile isPySpace).reverse.dropWhile isPySpace).getLast? =
        (l.dropWhile isPySpace).reverse.getLast? := by
      conv_rhs => rw [← List.takeWhile_append_dropWhile (p := isPySpace)
        (l := (l.dropWhile isPySpace).reverse)]
      exact (getLast?_append_right hyne).symm
    rw [h1, List.getLast?_reverse] at hd
    exact head?_dropWhile_not isPySpace l d hd
  have hlast : ∀ d, (pyStripChars l).getLast? = some d → isPySpace d = false := by
    intro d hd
    rw [hdef, List.getLast?_reverse] at hd
    exact head?_dropWhile_not isPySpace (l.dropWhile isPySpace).reverse d hd
  rw [noEdgeSpace, Bool.and_eq_true]
  constructor
  · rcases hh : (pyStripChars l).head? with _ | d
    · rfl
    · simpa using hhead d hh
  · rcases hh : (pyStripChars l).getLast? with _ | d
    · rfl
    · simpa using hlast d hh

theorem pyStrip_id {l : List Char} (h : noEdgeSpace l = true) :
    pyStripChars l = l := by
  rw [noEdgeSpace, Bool.and_eq_true] at h
  have hhead : ∀ d, l.head? = some d → isPySpace d = false := by
    intro d hd
    have := h.1
    rw [hd] at this
    simpa using this
  have hlast : ∀ d, l.getLast? = some d → isPySpace d = false := by
    intro d hd
    have := h.2
    rw [hd] at this
    simpa using this
  have e1 : l.dropWhile isPySpace = l := dropWhile_eq_self_of_head hhead
  have e2 : l.reverse.dropWhile isPySpace = l.reverse := by
    refine dropWhile_eq_self_of_head ?_
    intro d hd
    rw [List.head?_reverse] at hd
    exact hlast d hd
  show ((l.dropWhile isPySpace).reverse.dropWhile isPySpace).reverse = l
  rw [e1, e2, List.reverse_reverse]

theorem normalize_props (t : String) :
    noTab (normalize_whitespace t).data ∧ noDS (normalize_whitespace t).data ∧
    runsOk (normalize_whitespace t).data = true ∧
    noEdgeSpace (normalize_whitespace t).data = true := by
  by_cases ht : t = ""
  · subst ht
    refine ⟨?_, ?_, ?_, ?_⟩ <;>
      simp [normalize_whitespace, noTab, noDS, runsOk, runsOkAux, noEdgeSpace]
  · rw [normalize_whitespace, if_neg ht]
    have hdata : ∀ m : List Char, (m.asString).data = m := fun _ => rfl
    rw [hdata]
    set m := collapseNl (collapseSpaceTab t.data) with hm
    have hcstTab := collapseSpaceTabAux_noTab t.data false
    have hcstDS := collapseSpaceTabAux_noDS t.data false
    have hmTab : noTab m := by
      intro x hx
      rcases @collapseNlAux_mem _ [] _ hx with h | h | rfl
      · cases h
      · exact hcstTab x h
      · decide
    have hmDS : noDS m := by
      refine collapseNlAux_noDS (by intro x hx; cases hx) ?_
      simpa using hcstDS
    have hmRuns : runsOk m = true :=
      collapseNlAux_runsOk (by intro x hx; cases hx)
    obtain ⟨u, w, hu, hw, hdecomp⟩ := pyStrip_decomp m
    refine ⟨?_, ?_, ?_, pyStrip_edges m⟩
    · intro x hx
      refine hmTab x ?_
      rw [hdecomp]
      exact List.mem_append.mpr (Or.inl (List.mem_append.mpr (Or.inr hx)))
    · exact hmDS.infix ⟨u, w, hdecomp.symm⟩
    · have h1 : runsOk (pyStripChars m ++ w) = true := by
        refine runsOk_of_ws_prefix hu ?_
        rw [← List.append_assoc, ← hdecomp]
        exact hmRuns
      exact runsOkAux_of_append_ws hw h1

theorem normalize_fix {s : String} (h1 : noTab s.data) (h2 : noDS s.data)
    (h3 : runsOk s.data = true) (h4 : noEdgeSpace s.data = true) :
    normalize_whitespace s = s := by
  by_cases hs : s = ""
  · subst hs
    rfl
  · rw [normalize_whitespace, if_neg hs]
    have e1 : collapseSpaceTab s.data = s.data := (collapseSpaceTabAux_id h1 h2).1
    have e2 : collapseNl s.data = s.data := by
      rw [collapseNl, collapseNlAux_id h3]
      rfl
    rw [collapseSpaceTab] at e1
    show (pyStripChars (collapseNl (collapseSpaceTabAux false s.data))).asString = s
    rw [e1, e2, pyStrip_id h4]
    rcases s with ⟨d⟩
    rfl

/-- C6: `normalize_whitespace` is idempotent, and its output never contains
three consecutive newline characters and has no leading or trailing
(Python) whitespace. -/
theorem normalize_whitespace_spec :
    ∀ text : String,
      normalize_whitespace (normalize_whitespace text) =
        normalize_whitespace text ∧
      hasTripleNewline (normalize_whitespace text).data = false ∧
      noEdgeSpace (normalize_whitespace text).data = true := by
  intro t
  obtain ⟨p1, p2, p3, p4⟩ := normalize_props t
  exact ⟨normalize_fix p1 p2 p3 p4, hasTriple_false_of_runsOk p3, p4⟩


/-! ## Text converter (`converters/text_converter.py`) and its helpers.

`TextConverter` builds on `extract_title_from_content` (`format_utils.py`,
correct single-backslash regexes) and on `_format_title` / `_clean_markdown` /
`_normalize_korean_text` from the converter base class (modelled from
`markitdown_mcp_enhanced/core/base_converter.py`; the voidlight tree's copy is
absent from the source snapshot).  Several raw strings inside
`text_converter.py` itself double their backslashes; each embedded probe
documents the resulting compiled pattern. -/

/-- `re.sub(r'^#+\s*', '', line)`: when the line starts with at least one `#`,
drop the `#` run and the following whitespace run (the `^`-anchored pattern
matches at most once). -/
def stripHeadingMarks (l : List Char) : List Char :=
  match l with
  | '#' :: _ => (l.dropWhile (fun c => c = '#')).dropWhile isPySpace
  | _ => l

/-- The character class `[\w\s가-힣]` of `re.sub(r'[^\w\s가-힣]', '', line)`:
ASCII word characters, Python whitespace, and the Hangul syllable block
(Python's Unicode `\w` is wider, but the strings evaluated here are ASCII). -/
def isWordSpaceKorean (c : Char) : Bool :=
  ('a' ≤ c ∧ c ≤ 'z') ∨ ('A' ≤ c ∧ c ≤ 'Z') ∨ ('0' ≤ c ∧ c ≤ '9') ∨ c = '_' ∨
  isPySpace c ∨ ('가' ≤ c ∧ c ≤ '힣')

/-- `format_utils.py` lines 51-70, the line loop of
`extract_title_from_content`. -/
def findTitle : List (List Char) → Option String
  | [] => none
  | line :: rest =>
      let line := pyStripChars line
      if line ≠ [] ∧ line.length ≤ 100 then
        let line := (stripHeadingMarks line).filter isWordSpaceKorean
        if line ≠ [] then some line.asString else findTitle rest
      else findTitle rest

/-- `format_utils.py` lines 51-70, `extract_title_from_content`
(`max_length` left at its default 100). -/
def extract_title_from_content (content : String) : Option String :=
  if content = "" then none
  else findTitle (splitOnChar '\n' content.data)

/-- `text_converter.py` line 121, raw pattern `^#+\\s` with `re.MULTILINE`:
compiled, a line starting with one or more `#` followed by a literal
backslash and the letter `s`. -/
def probeHeadings (lines : List (List Char)) : Bool :=
  lines.any (fun l =>
    1 ≤ (l.takeWhile (fun c => c = '#')).length ∧
    listIsPre ['\\', 's'] (l.dropWhile (fun c => c = '#')))

/-- `text_converter.py` line 122, raw pattern `^\\*\\s`: compiled, a line
starting with one or more backslashes (`\\*` = zero or more, `\\` = one more)
followed by the letter `s`. -/
def probeBullets (lines : List (List Char)) : Bool :=
  lines.any (fun l =>
    1 ≤ (l.takeWhile (fun c => c = '\\')).length ∧
    listIsPre ['s'] (l.dropWhile (fun c => c = '\\')))

/-- `text_converter.py` line 123, raw pattern `^\\d+\\.\\s`: compiled, a line
starting with a backslash, one or more `d`, a backslash, any character, a
backslash and the letter `s`. -/
def probeNumbered (lines : List (List Char)) : Bool :=
  lines.any (fun l =>
    match l with
    | '\\' :: r =>
        decide (1 ≤ (r.takeWhile (fun c => c = 'd')).length) &&
        (match r.dropWhile (fun c => c = 'd') with
         | '\\' :: _ :: '\\' :: 's' :: _ => true
         | _ => false)
    | _ => false)

/-- `text_converter.py` lines 124-125, raw patterns `\\*\\*[^*]+\\*\\*` and
`\\*[^*]+\\*`: every backslash-star pair is "zero or more backslashes", which
matches empty, so both patterns reduce to `[^*]+` — they match exactly when
the text contains a character other than `*` (newlines included, as `[^*]` is
a class). -/
def probeNonStar (text : List Char) : Bool :=
  text.any (fun c => c ≠ '*')

/-- Substring search (`re.search` of a literal pattern / Python `in`). -/
def infixOf (pat : List Char) : List Char → Bool
  | [] => listIsPre pat []
  | c :: rest => listIsPre pat (c :: rest) || infixOf pat rest

/-- The match of `text_converter.py` line 126's raw pattern
`\\[[^\\]]+\\]\\([^\\)]+\\)` at one position: compiled, it is a backslash,
one character from the class `{[, ^, \}`, one or more `]`, a backslash, `]`,
a backslash, one or more characters outside `{\, )}`, and a final backslash
(`\\(`/`\\)` are a literal backslash followed by group-open/close). -/
def linkPatternAt (l : List Char) : Bool :=
  match l with
  | '\\' :: c :: r =>
      decide (c = '[' ∨ c = '^' ∨ c = '\\') &&
      decide (1 ≤ (r.takeWhile (fun d => d = ']')).length) &&
      (match r.dropWhile (fun d => d = ']') with
       | '\\' :: ']' :: '\\' :: r3 =>
           decide (1 ≤ (r3.takeWhile (fun d => ¬ (d = '\\' ∨ d = ')'))).length) &&
           listIsPre ['\\'] (r3.dropWhile (fun d => ¬ (d = '\\' ∨ d = ')')))
       | _ => false)
  | _ => false

/-- `re.search` of the link pattern over the whole text. -/
def probeLinks : List Char → Bool
  | [] => false
  | c :: rest => linkPatternAt (c :: rest) || probeLinks rest

/-- `text_converter.py` lines 115-134, `_looks_like_markdown`: true when any
of the seven probes matches (the loop returns at the first hit; as pure
functions the disjunction is equivalent). -/
def looks_like_markdown (text : String) : Bool :=
  let lines := splitOnChar '\n' text.data
  probeHeadings lines || probeBullets lines || probeNumbered lines ||
  probeNonStar text.data || probeNonStar text.data || probeLinks text.data ||
  infixOf ['`', '`', '`'] text.data

/-- Python `text.split("\\n")` with the LITERAL two-character separator, as
written in `text_converter.py` lines 138 and 160. -/
def splitOnLitBackslashN : List Char → List (List Char)
  | [] => [[]]
  | '\\' :: 'n' :: rest => [] :: splitOnLitBackslashN rest
  | c :: rest =>
      match splitOnLitBackslashN rest with
      | [] => [[c]]
      | l :: ls => (c :: l) :: ls

/-- `str.endswith(('.', '!', '?', ':'))`. -/
def endsWithPunct (l : List Char) : Bool :=
  match l.getLast? with
  | some c => c = '.' ∨ c = '!' ∨ c = '?' ∨ c = ':'
  | none => false

/-- `line.startswith(tuple('0123456789'))`. -/
def startsWithDigit (l : List Char) : Bool :=
  match l.head? with
  | some c => '0' ≤ c ∧ c ≤ '9'
  | none => false

/-- `text_converter.py` lines 162-172, `_looks_like_heading`. -/
def looks_like_heading (line : List Char) : Bool :=
  (line.length < 100 ∧ ¬ endsWithPunct line) ∨ startsWithDigit line

/-- `text_converter.py` lines 174-182, `_get_heading_level`:
`line.split()[0].count('.')` dots in the leading whitespace-delimited token,
plus one, capped at 6; level 2 otherwise. -/
def get_heading_level (line : List Char) : Nat :=
  if startsWithDigit line then
    min (((line.dropWhile isPySpace).takeWhile
      (fun c => ¬ isPySpace c)).count '.' + 1) 6
  else 2

/-- `text_converter.py` lines 184-195, `_looks_like_list_item`: the
`startswith` probe for bullet glyphs; reaching the fall-through
`re.match(r'^\\d+\\)\\s', line)` raises `re.error`, because the doubled
pattern `^\\d+\\)\\s` contains an unescaped `)` and does not compile. -/
def looks_like_list_item (line : List Char) : Except String Bool :=
  if (match line.head? with
      | some c => decide (c = '•' ∨ c = '·' ∨ c = '-' ∨ c = '*')
      | none => false) = true then .ok true
  else .error "unbalanced parenthesis at position 8"

/-- One line of `_plain_text_to_markdown` (lines 141-158). -/
def plainLineToMarkdown (line : List Char) : Except String (List Char) :=
  let line := pyStripChars line
  if line = [] then .ok []
  else if looks_like_heading line then
    .ok (List.replicate (get_heading_level line) '#' ++ ' ' :: line)
  else
    match looks_like_list_item line with
    | .ok true => .ok ('-' :: ' ' :: line)
    | .ok false => .ok line
    | .error e => .error e

/-- The line loop of `_plain_text_to_markdown`. -/
def plainLinesToMarkdown : List (List Char) → Except String (List (List Char))
  | [] => .ok []
  | l :: ls => do
      let m ← plainLineToMarkdown l
      let ms ← plainLinesToMarkdown ls
      .ok (m :: ms)

/-- `text_converter.py` lines 136-160, `_plain_text_to_markdown`: split and
re-join on the LITERAL two-character `"\\n"`. -/
def plain_text_to_markdown (text : List Char) : Except String (List Char) :=
  match plainLinesToMarkdown (splitOnLitBackslashN text) with
  | .ok ls => .ok (List.intercalate ['\\', 'n'] ls)
  | .error e => .error e

/-- `text_converter.py` lines 97-113, `_text_to_markdown`: a truthy title
contributes `f"# {title}\\n\\n"` — with the LITERAL backslash-n escapes the
file writes — then the text itself when the Markdown probe accepts it, else
the plain-text rendering. -/
def text_to_markdown (text : String) (title : Option String) :
    Except String String :=
  let markdown :=
    if truthy title then "# " ++ title.getD "" ++ "\\n\\n" else ""
  if looks_like_markdown text then .ok (markdown ++ text)
  else
    match plain_text_to_markdown text.data with
    | .ok b => .ok (markdown ++ b.asString)
    | .error e => .error e


/-- A token of the interword scan: a non-whitespace character, or a maximal
whitespace run. -/
inductive WsTok
  | ch (c : Char)
  | run (ws : List Char)
deriving Repr, DecidableEq

/-- Tokenize into non-whitespace characters and maximal whitespace runs
(the accumulator holds the reversed current run). -/
def tokenizeWs : List Char → List Char → List WsTok
  | acc, [] => if acc = [] then [] else [.run acc.reverse]
  | acc, c :: rest =>
      if isPySpace c then tokenizeWs (c :: acc) rest
      else if acc = [] then .ch c :: tokenizeWs [] rest
      else .run acc.reverse :: .ch c :: tokenizeWs [] rest

/-- `re.sub(r'(\S)\s+(\S)', r'\1 \2', text)` over the token stream: a
non-whitespace character followed by a whitespace run followed by another
non-whitespace character collapses the run to one space, and scanning resumes
after the second character (it is consumed by the match); whitespace runs not
flanked by two non-whitespace characters are copied, as no match can start or
end inside them. -/
def interwordTokens : List WsTok → List Char
  | [] => []
  | .ch c :: .run _ :: .ch d :: rest => c :: ' ' :: d :: interwordTokens rest
  | .ch c :: .run ws :: [] => c :: ws
  | .ch c :: rest => c :: interwordTokens rest
  | .run ws :: rest => ws ++ interwordTokens rest

/-- `base_converter.py` line 88: `re.sub(r'(\S)\s+(\S)', r'\1 \2', text)`. -/
def collapseInterwordSpace (l : List Char) : List Char :=
  interwordTokens (tokenizeWs [] l)

/-- `base_converter.py` lines 91-97: the Korean punctuation substitution
table, applied as `str.replace` per (single-character) entry. -/
def koreanPunct (c : Char) : Char :=
  if c = '․' then '.'
  else if c = '，' then ','
  else if c = '：' then ':'
  else if c = '；' then ';'
  else if c = '？' then '?'
  else if c = '！' then '!'
  else if c = '（' then '('
  else if c = '）' then ')'
  else if c = '「' then '"'
  else if c = '」' then '"'
  else if c = '『' then '"'
  else if c = '』' then '"'
  else c

/-- `base_converter.py` lines 80-99, `_normalize_korean_text` (modelled from
the `markitdown_mcp_enhanced` sibling; the voidlight tree's
`base_converter.py` is absent from src). -/
def normalize_korean_text (korean_support : Bool) (text : String) : String :=
  if ¬ korean_support ∨ text = "" then text
  else ((collapseInterwordSpace text.data).map koreanPunct).asString

/-- ASCII `str.upper` on one character. -/
def charUpper (c : Char) : Char :=
  if 'a' ≤ c ∧ c ≤ 'z' then Char.ofNat (c.toNat - 32) else c

/-- Python `str.capitalize` (ASCII model): first character upper-cased, the
rest lower-cased. -/
def asciiCapitalize : List Char → List Char
  | [] => []
  | c :: rest => charUpper c :: rest.map charPyLower

/-- `base_converter.py` lines 126-142, `_format_title` (modelled from the
enhanced sibling): strip, optional Korean normalization, ellipsize past 100
characters. -/
def format_title (korean_support : Bool) (title : String) : String :=
  if title = "" then ""
  else
    let title := pyStrip title
    let title := if korean_support then normalize_korean_text true title
                 else title
    if 100 < title.length then (title.data.take 97).asString ++ "..."
    else title

/-- `base_converter.py` lines 144-161, `_clean_markdown` (modelled from the
enhanced sibling): `re.sub(r'\n\s*\n\s*\n', '\n\n', markdown)` — whose
leftmost/greedy behavior coincides with the `\n+`-variant embedded as
`collapseNl` (both collapse, in each maximal whitespace run with at least
three newlines, the span from its first to its last newline; checked
exhaustively against CPython) — then strip, then optional Korean
normalization. -/
def clean_markdown (korean_support : Bool) (markdown : String) : String :=
  if markdown = "" then ""
  else
    let md := (pyStripChars (collapseNl markdown.data)).asString
    if korean_support then normalize_korean_text true md else md

/-- A metadata value: Python string or int. -/
inductive MetaValue
  | s (v : String)
  | i (v : Int)
deriving Repr, DecidableEq

/-- `base_converter.py` lines 101-124, `_extract_metadata` (modelled from the
enhanced sibling): filename/mimetype/source_url entries for truthy fields.
The `local_path` branch stats the filesystem and contributes nothing when
`local_path` is falsy, as in every scenario evaluated here. -/
def extract_metadata (si : StreamInfo) : List (String × MetaValue) :=
  (if truthy si.filename then [("filename", .s (si.filename.getD ""))]
   else []) ++
  (if truthy si.mimetype then [("mimetype", .s (si.mimetype.getD ""))]
   else []) ++
  (if truthy si.url then [("source_url", .s (si.url.getD ""))] else [])

/-- `base_converter.py` lines 12-23, `DocumentConverterResult`. -/
structure DocumentConverterResult where
  markdown : String
  title : Option String := none
  metadata : List (String × MetaValue) := []
deriving Repr, DecidableEq

/-- `text_converter.py` lines 197-213, `_extract_title_from_filename`:
drop the final dot-extension, turn `_`/`-` into spaces, strip and
capitalize. -/
def extract_title_from_filename (filename : Option String) : Option String :=
  if ¬ truthy filename then none
  else
    let t := (filename.getD "").data
    let t := if t.contains '.' then
        ((t.reverse.dropWhile (fun c => c ≠ '.')).drop 1).reverse
      else t
    let t := t.map (fun c => if c = '_' ∨ c = '-' then ' ' else c)
    let t := asciiCapitalize (pyStripChars t)
    if t ≠ [] then some t.asString else none

/-- Number of maximal non-whitespace runs: `len(text.split())`. -/
def countTokens (l : List Char) : Nat :=
  ((tokenizeWs [] l).filter (fun t => match t with
    | .ch _ => true
    | .run _ => false)).length

/-- `text_converter.py` lines 24-25: the accepted extensions. -/
def textSupportedExtensions : List String :=
  [".txt", ".text", ".log", ".md", ".rst"]

/-- `text_converter.py` line 25: the accepted MIME type prefixes. -/
def textSupportedMimetypes : List String :=
  ["text/plain", "text/markdown", "text/x-rst"]

/-- `text_converter.py` lines 28-61, `TextConverter.accepts`: extension
match, MIME match, or a decodable content sample (the stream-decoding probe
is the boolean parameter). -/
def textAccepts (si : StreamInfo) (sampleDecodes : Bool) : Bool :=
  si.matches_extension textSupportedExtensions ||
  si.matches_mimetype textSupportedMimetypes || sampleDecodes

/-- `text_converter.py` lines 63-95, `TextConverter.convert`.  The stream
carries the UTF-8 bytes of `streamText` and `stream_info.charset` is falsy in
the evaluated scenario, so `read_stream_with_encoding` returns the text
itself.  Any exception is re-raised as FileConversionException. -/
def textConvert (korean_support : Bool) (streamText : String)
    (si : StreamInfo) : Except String DocumentConverterResult :=
  let text_content := normalize_whitespace streamText
  let title :=
    let t1 := extract_title_from_content text_content
    if truthy t1 then t1 else extract_title_from_filename si.filename
  match text_to_markdown text_content title with
  | .error e => .error ("Text conversion failed: " ++ e)
  | .ok markdown =>
      .ok ⟨clean_markdown korean_support markdown,
           if truthy title then some (format_title korean_support (title.getD ""))
           else none,
           extract_metadata si ++
             [("word_count", .i (Int.ofNat (countTokens text_content.data))),
              ("character_count", .i (Int.ofNat text_content.length)),
              ("line_count",
               .i (Int.ofNat (splitOnLitBackslashN text_content.data).length))]⟩

/-- The C3 scenario input text. -/
def testDocText : String := "# Test Document\n\nThis is a test."

/-- The C3 scenario descriptor: an in-memory stream tagged `.txt`. -/
def testDocSI : StreamInfo := StreamInfo.postInit { extension := some ".txt" }


/-- C3, counterexample: converting the stream `"# Test Document\n\nThis is a
test."` with a `.txt` extension does succeed via the Text converter with
title "Test Document", but the returned markdown does NOT equal the input
text: `_text_to_markdown` prepends `f"# {title}\\n\\n"` (with literal
backslash-n escapes) because the title is truthy, and `_clean_markdown`'s
Korean normalization `re.sub(r'(\S)\s+(\S)', r'\1 \2', ·)` collapses the
input's blank line to a single space. -/
theorem text_convert_markdown_ne_input :
    (textConvert true testDocText testDocSI).map
        (fun r => (decide (r.markdown = testDocText), r.title)) =
      Except.ok (false, some "Test Document") := by
  rfl

/-- C3, amended: converting an in-memory stream whose content is
`"# Test Document\n\nThis is a test."` with a `.txt` extension succeeds via
the Text converter (whose `accepts` matches the extension), with title
"Test Document"; the markdown is the input with the title heading and two
LITERAL `\n` escape sequences prepended and with every whitespace run
collapsed to one space by the Korean text normalization:
`"# Test Document\\n\\n# Test Document This is a test."`.  (The
Markdown-syntax probe does fire, but through its doubled-backslash bold
pattern `\\*\\*[^*]+\\*\\*`, which matches any text containing a
non-asterisk character.) -/
theorem text_convert_test_document_amended :
    textAccepts testDocSI false = true ∧
    (textConvert true testDocText testDocSI).map
        (fun r => (r.markdown, r.title)) =
      Except.ok ("# Test Document\\n\\n# Test Document This is a test.",
        some "Test Document") := by
  exact ⟨rfl, rfl⟩


/-! ## The conversion attempt loop (`core/markitdown.py`,
`_convert_with_guesses`, lines 357-399) -/

/-- `listIsPre p s` holds exactly when `s = p ++ t` for some `t`. -/
theorem listIsPre_iff {p s : List Char} :
    listIsPre p s = true ↔ ∃ t, s = p ++ t := by
  induction p generalizing s with
  | nil => simp [listIsPre]
  | cons a p2 ih =>
      rcases s with _ | ⟨c, s2⟩
      · simp [listIsPre]
      · rw [listIsPre]
        simp only [Bool.and_eq_true, decide_eq_true_eq]
        constructor
        · rintro ⟨rfl, h2⟩
          obtain ⟨t, rfl⟩ := ih.mp h2
          exact ⟨t, rfl⟩
        · rintro ⟨t, ht⟩
          rw [List.cons_append] at ht
          injection ht with h1 h2
          exact ⟨h1.symm, ih.mpr ⟨t, h2⟩⟩

/-- `infixOf p l` holds exactly when `l = u ++ p ++ v` for some `u`, `v`. -/
theorem infixOf_iff {p l : List Char} :
    infixOf p l = true ↔ ∃ u v, l = u ++ (p ++ v) := by
  induction l with
  | nil =>
      rw [infixOf, listIsPre_iff]
      constructor
      · rintro ⟨t, ht⟩
        exact ⟨[], t, ht⟩
      · rintro ⟨u, v, huv⟩
        rcases List.append_eq_nil.mp huv.symm with ⟨rfl, h2⟩
        exact ⟨v, h2.symm⟩
  | cons c rest ih =>
      rw [infixOf, Bool.or_eq_true, listIsPre_iff, ih]
      constructor
      · rintro (⟨t, ht⟩ | ⟨u, v, huv⟩)
        · exact ⟨[], t, ht⟩
        · exact ⟨c :: u, v, by rw [huv, List.cons_append]⟩
      · rintro ⟨u, v, huv⟩
        rcases u with _ | ⟨a, u2⟩
        · exact Or.inl ⟨v, huv⟩
        · rw [List.cons_append] at huv
          injection huv with h1 h2
          exact Or.inr ⟨u2, v, h2⟩

/-- Substring containment of Python strings. -/
def strContains (hay pat : String) : Bool :=
  infixOf pat.data hay.data

theorem data_append (a b : String) : (a ++ b).data = a.data ++ b.data := by
  rcases a with ⟨da⟩
  rcases b with ⟨db⟩
  rfl

theorem strContains_refl (s : String) : strContains s s = true := by
  rw [strContains, infixOf_iff]
  exact ⟨[], [], by simp⟩

theorem strContains_trans {a b c : String} (h1 : strContains a b = true)
    (h2 : strContains b c = true) : strContains a c = true := by
  rw [strContains, infixOf_iff] at h1 h2 ⊢
  obtain ⟨u1, v1, h1⟩ := h1
  obtain ⟨u2, v2, h2⟩ := h2
  refine ⟨u1 ++ u2, v2 ++ v1, ?_⟩
  rw [h1, h2]
  simp

theorem strContains_append_left {a : String} (b : String) {pat : String}
    (h : strContains a pat = true) : strContains (a ++ b) pat = true := by
  rw [strContains, infixOf_iff] at h ⊢
  obtain ⟨u, v, hd⟩ := h
  refine ⟨u, v ++ b.data, ?_⟩
  rw [data_append, hd]
  simp

theorem strContains_append_right (a : String) {b pat : String}
    (h : strContains b pat = true) : strContains (a ++ b) pat = true := by
  rw [strContains, infixOf_iff] at h ⊢
  obtain ⟨u, v, hd⟩ := h
  refine ⟨a.data ++ u, v, ?_⟩
  rw [data_append, hd]
  simp

/-- `", ".join(items)`. -/
def joinCommaSep : List String → String
  | [] => ""
  | [x] => x
  | x :: y :: rest => x ++ ", " ++ joinCommaSep (y :: rest)

theorem strContains_join_of_mem :
    ∀ {items : List String} {y x : String}, y ∈ items →
      strContains y x = true → strContains (joinCommaSep items) x = true := by
  intro items
  induction items with
  | nil => intro y x hy; cases hy
  | cons a rest ih =>
      intro y x hy hx
      rcases rest with _ | ⟨b, rest2⟩
      · rcases List.mem_singleton.mp hy with rfl
        exact hx
      · rcases List.mem_cons.mp hy with rfl | hy2
        · exact strContains_append_left _ (strContains_append_left _ hx)
        · exact strContains_append_right _ (ih hy2 hx)

/-- Python `repr` of a string (the strings rendered here need no escaping). -/
def pyReprStr (s : String) : String :=
  "\x27" ++ s ++ "\x27"

theorem strContains_pyReprStr (s : String) :
    strContains (pyReprStr s) s = true :=
  strContains_append_left _ (strContains_append_right _ (strContains_refl s))

/-- `str()` of a Python list whose elements render to the given strings. -/
def pyListStr (items : List String) : String :=
  "[" ++ joinCommaSep items ++ "]"

/-- A registered converter as the attempt loop sees it: the class name and
the `accepts`/`convert` methods, either returning or raising (`.error` is the
raised exception's `str`). -/
structure ConverterSpec where
  name : String
  accepts : StreamInfo → Except String Bool
  convert : StreamInfo → Except String DocumentConverterResult

/-- One entry of `failed_attempts` (`markitdown.py` lines 383-388). -/
structure FailedAttempt where
  converter : String
  stream_info : StreamInfo
  error : String

/-- The inner loop of `_convert_with_guesses` (lines 364-389) over the
registered converters for one guess: each exception from `accepts` or
`convert` is recorded and the loop continues; a converter that does not
accept is skipped silently; the first successful conversion returns
immediately (after the optional Korean post-processing `post`, applied inside
the same `try`; it is a pure function here). -/
def tryConvertersFor
    (post : DocumentConverterResult → DocumentConverterResult)
    (si : StreamInfo) :
    List ConverterSpec → List FailedAttempt × Option DocumentConverterResult
  | [] => ([], none)
  | c :: cs =>
      match c.accepts si with
      | .error e =>
          let r := tryConvertersFor post si cs
          (⟨c.name, si, e⟩ :: r.1, r.2)
      | .ok false => tryConvertersFor post si cs
      | .ok true =>
          match c.convert si with
          | .error e =>
              let r := tryConvertersFor post si cs
              (⟨c.name, si, e⟩ :: r.1, r.2)
          | .ok res => ([], some (post res))

/-- The outer loop over the descriptor guesses, accumulating the recorded
failures across guesses. -/
def attemptAll (post : DocumentConverterResult → DocumentConverterResult)
    (convs : List ConverterSpec) :
    List StreamInfo → List FailedAttempt × Option DocumentConverterResult
  | [] => ([], none)
  | si :: rest =>
      let r := tryConvertersFor post si convs
      match r.2 with
      | some res => (r.1, some res)
      | none =>
          let r2 := attemptAll post convs rest
          (r.1 ++ r2.1, r2.2)

/-- `str()` of one failed-attempt dict,
`{'converter': ..., 'stream_info': ..., 'error': ...}`; `str` of a dict
renders values with `repr`, so the descriptor appears as its
dataclass-generated repr. -/
def failedAttemptStr (a : FailedAttempt) : String :=
  "\x7b\x27converter\x27: " ++ pyReprStr a.converter ++
  ", \x27stream_info\x27: " ++ StreamInfo.pyRepr a.stream_info ++
  ", \x27error\x27: " ++ pyReprStr a.error ++ "\x7d"

/-- `markitdown.py` lines 391-397: the UnsupportedFormatException message —
the base text, the guessed descriptors (`str(si)` list) when any, and (after
the LITERAL backslash-n the f-string writes) the failed-attempts list when
any. -/
def unsupportedMsg (guesses : List StreamInfo)
    (attempts : List FailedAttempt) : String :=
  let m := "No suitable converter found for stream"
  let m :=
    if guesses.isEmpty = false then
      m ++ " (guessed types: " ++
        pyListStr (guesses.map (fun si => pyReprStr (StreamInfo.pyStr si))) ++
        ")"
    else m
  if attempts.isEmpty = false then
    m ++ "\\nFailed attempts: " ++ pyListStr (attempts.map failedAttemptStr)
  else m

/-- `markitdown.py` lines 357-399, `_convert_with_guesses`: the first
successful converter wins; on exhaustion an UnsupportedFormatException with
the assembled message is raised. -/
def convert_with_guesses
    (post : DocumentConverterResult → DocumentConverterResult)
    (guesses : List StreamInfo) (convs : List ConverterSpec) :
    Except String DocumentConverterResult :=
  match attemptAll post convs guesses with
  | (_, some r) => .ok r
  | (attempts, none) => .error (unsupportedMsg guesses attempts)

/-- A converter/guess combination succeeds: `accepts` returns True and
`convert` returns a result. -/
def succeeds (c : ConverterSpec) (si : StreamInfo) : Bool :=
  match c.accepts si with
  | .ok true => (c.convert si).isOk
  | _ => false


theorem failedAttemptStr_contains_converter (a : FailedAttempt) :
    strContains (failedAttemptStr a) a.converter = true := by
  refine strContains_append_left _ (strContains_append_left _
    (strContains_append_left _ (strContains_append_left _
      (strContains_append_left _ ?_))))
  exact strContains_append_right _ (strContains_pyReprStr a.converter)

theorem failedAttemptStr_contains_error (a : FailedAttempt) :
    strContains (failedAttemptStr a) a.error = true := by
  refine strContains_append_left _ ?_
  exact strContains_append_right _ (strContains_pyReprStr a.error)

theorem unsupportedMsg_contains_guess {guesses : List StreamInfo}
    {attempts : List FailedAttempt} {si : StreamInfo} (hsi : si ∈ guesses) :
    strContains (unsupportedMsg guesses attempts)
      (StreamInfo.pyStr si) = true := by
  have hmem : pyReprStr (StreamInfo.pyStr si) ∈
      guesses.map (fun si => pyReprStr (StreamInfo.pyStr si)) :=
    List.mem_map_of_mem _ hsi
  have hlist : strContains
      (pyListStr (guesses.map (fun si => pyReprStr (StreamInfo.pyStr si))))
      (StreamInfo.pyStr si) = true := by
    refine strContains_append_left _ (strContains_append_right _ ?_)
    exact strContains_join_of_mem hmem (strContains_pyReprStr _)
  have hge : guesses.isEmpty = false := by
    rcases guesses with _ | ⟨g, gs⟩
    · cases hsi
    · rfl
  rw [unsupportedMsg]
  simp only [hge, if_pos]
  have hm1 : strContains
      ("No suitable converter found for stream" ++ " (guessed types: " ++
        pyListStr (guesses.map (fun si => pyReprStr (StreamInfo.pyStr si))) ++
        ")") (StreamInfo.pyStr si) = true := by
    refine strContains_append_left _ ?_
    exact strContains_append_right _ hlist
  by_cases hat : attempts.isEmpty = false
  · simp only [hat, if_pos]
    exact strContains_append_left _ (strContains_append_left _ hm1)
  · simp only [hat, if_neg, Bool.not_eq_false]
    simpa [hat] using hm1

theorem unsupportedMsg_contains_attempt {guesses : List StreamInfo}
    {attempts : List FailedAttempt} {a : FailedAttempt} (ha : a ∈ attempts) :
    strContains (unsupportedMsg guesses attempts) a.converter = true ∧
    strContains (unsupportedMsg guesses attempts) a.error = true := by
  have hat : attempts.isEmpty = false := by
    rcases attempts with _ | ⟨x, xs⟩
    · cases ha
    · rfl
  have hmem : failedAttemptStr a ∈ attempts.map failedAttemptStr :=
    List.mem_map_of_mem _ ha
  rw [unsupportedMsg]
  simp only [hat, if_pos]
  constructor
  · refine strContains_append_right _ ?_
    refine strContains_append_left _ (strContains_append_right _ ?_)
    exact strContains_join_of_mem hmem (failedAttemptStr_contains_converter a)
  · refine strContains_append_right _ ?_
    refine strContains_append_left _ (strContains_append_right _ ?_)
    exact strContains_join_of_mem hmem (failedAttemptStr_contains_error a)

theorem tryConvertersFor_none_of_noSuccess
    (post : DocumentConverterResult → DocumentConverterResult)
    (si : StreamInfo) :
    ∀ convs : List ConverterSpec, (∀ c ∈ convs, succeeds c si = false) →
      (tryConvertersFor post si convs).2 = none := by
  intro convs
  induction convs with
  | nil => intro _; rfl
  | cons c cs ih =>
      intro h
      have hcs : ∀ c2 ∈ cs, succeeds c2 si = false :=
        fun c2 hc2 => h c2 (List.mem_cons_of_mem _ hc2)
      have hc := h c (List.mem_cons_self _ _)
      rw [succeeds] at hc
      rw [tryConvertersFor]
      rcases haccepts : c.accepts si with e | b
      · simpa using ih hcs
      · rcases b with _ | _
        · simpa [haccepts] using ih hcs
        · rw [haccepts] at hc
          rcases hconvert : c.convert si with e2 | res
          · simpa [hconvert] using ih hcs
          · rw [hconvert] at hc
            simp [Except.isOk, Except.toBool] at hc

theorem attemptAll_none_of_noSuccess
    (post : DocumentConverterResult → DocumentConverterResult)
    (convs : List ConverterSpec) :
    ∀ guesses : List StreamInfo,
      (∀ si ∈ guesses, ∀ c ∈ convs, succeeds c si = false) →
      (attemptAll post convs guesses).2 = none := by
  intro guesses
  induction guesses with
  | nil => intro _; rfl
  | cons si rest ih =>
      intro h
      have h1 := tryConvertersFor_none_of_noSuccess post si convs
        (h si (List.mem_cons_self _ _))
      have h2 := ih (fun si2 hsi2 => h si2 (List.mem_cons_of_mem _ hsi2))
      rw [attemptAll]
      rcases hr : tryConvertersFor post si convs with ⟨as, r2⟩
      rw [hr] at h1
      simp only at h1
      subst h1
      simp [h2]

/-- C4: every exception raised by a registered converter's `accepts` or
`convert` call is caught and recorded (converter name, descriptor, error
text) and the loop continues with the next combination; and when every
converter/guess combination is exhausted without success,
UnsupportedFormatException is raised with a message that includes every
guessed descriptor and, for every recorded failure, its converter name and
error text. -/
theorem convert_with_guesses_spec :
    (∀ (post : DocumentConverterResult → DocumentConverterResult)
       (si : StreamInfo) (c : ConverterSpec) (cs : List ConverterSpec)
       (e : String), c.accepts si = .error e →
         tryConvertersFor post si (c :: cs) =
           (⟨c.name, si, e⟩ :: (tryConvertersFor post si cs).1,
            (tryConvertersFor post si cs).2)) ∧
    (∀ (post : DocumentConverterResult → DocumentConverterResult)
       (si : StreamInfo) (c : ConverterSpec) (cs : List ConverterSpec)
       (e : String), c.accepts si = .ok true → c.convert si = .error e →
         tryConvertersFor post si (c :: cs) =
           (⟨c.name, si, e⟩ :: (tryConvertersFor post si cs).1,
            (tryConvertersFor post si cs).2)) ∧
    (∀ (post : DocumentConverterResult → DocumentConverterResult)
       (guesses : List StreamInfo) (convs : List ConverterSpec),
       (∀ si ∈ guesses, ∀ c ∈ convs, succeeds c si = false) →
       convert_with_guesses post guesses convs =
         .error (unsupportedMsg guesses (attemptAll post convs guesses).1) ∧
       (∀ si ∈ guesses,
          strContains (unsupportedMsg guesses (attemptAll post convs guesses).1)
            (StreamInfo.pyStr si) = true) ∧
       (∀ a ∈ (attemptAll post convs guesses).1,
          strContains (unsupportedMsg guesses (attemptAll post convs guesses).1)
            a.converter = true ∧
          strContains (unsupportedMsg guesses (attemptAll post convs guesses).1)
            a.error = true)) := by
  refine ⟨?_, ?_, ?_⟩
  · intro post si c cs e h
    rw [tryConvertersFor, h]
  · intro post si c cs e h1 h2
    rw [tryConvertersFor, h1, h2]
  · intro post guesses convs h
    have hnone := attemptAll_none_of_noSuccess post convs guesses h
    refine ⟨?_, ?_, ?_⟩
    · rw [convert_with_guesses]
      rcases hA : attemptAll post convs guesses with ⟨as, r2⟩
      rw [hA] at hnone
      simp only at hnone
      subst hnone
      simp [hA]
    · intro si hsi
      exact unsupportedMsg_contains_guess hsi
    · intro a ha
      exact unsupportedMsg_contains_attempt ha

/-- The C4 witness guess: an in-memory stream tagged with an unrecognized
extension. -/
def witnessGuess : StreamInfo := StreamInfo.postInit { extension := some ".xyz" }

/-- The C4 witness converter: both methods raise. -/
def failConverter : ConverterSpec :=
  ⟨"TextConverter", fun _ => .error "boom", fun _ => .error "boom"⟩

/-- C4 witness: the exhaustion branch of `convert_with_guesses_spec` applied
to one guess and one always-raising converter. -/
theorem convert_with_guesses_spec_witness :
    convert_with_guesses id [witnessGuess] [failConverter] =
      .error (unsupportedMsg [witnessGuess]
        (attemptAll id [failConverter] [witnessGuess]).1) := by
  refine (convert_with_guesses_spec.2.2 id [witnessGuess] [failConverter] ?_).1
  intro si hsi c hc
  rcases List.mem_singleton.mp hsi with rfl
  rcases List.mem_singleton.mp hc with rfl
  rfl


/-! ## Configuration subsystem
(`markitdown_mcp_enhanced/config/settings.py`) -/

/-- `settings.py` lines 15-21. -/
structure ConverterSettings where
  enable_builtins : Bool := true
  enable_plugins : Bool := true
  korean_support : Bool := true
  max_workers : Int := 4
deriving Repr, DecidableEq

/-- `settings.py` lines 24-30 (the float `temperature` is embedded as a
rational; JSON serialization round-trips Python floats exactly via repr). -/
structure LLMSettings where
  openai_api_key : Option String := none
  llm_model : String := "gpt-4o"
  max_tokens : Int := 300
  temperature : Rat := 0.1
deriving Repr, DecidableEq

/-- `settings.py` lines 33-38. -/
structure AzureSettings where
  endpoint : Option String := none
  key : Option String := none
  enabled : Bool := false
deriving Repr, DecidableEq

/-- `settings.py` lines 41-47. -/
structure OCRSettings where
  tesseract_path : Option String := none
  easyocr_enabled : Bool := true
  tesseract_enabled : Bool := true
  languages : List String := ["ko", "en"]
deriving Repr, DecidableEq

/-- `settings.py` lines 50-55. -/
structure AudioSettings where
  whisper_model : String := "base"
  local_whisper_enabled : Bool := true
  openai_whisper_enabled : Bool := false
deriving Repr, DecidableEq

/-- `settings.py` lines 58-64. -/
structure ServerSettings where
  log_level : String := "INFO"
  log_file : Option String := none
  enable_cors : Bool := false
  max_file_size_mb : Int := 100
deriving Repr, DecidableEq

/-- `settings.py` lines 67-73. -/
structure ConversionOptions where
  include_metadata : Bool := false
  extract_images : Bool := false
  korean_optimization : Bool := false
  preserve_formatting : Bool := true
deriving Repr, DecidableEq

/-- `settings.py` lines 76-85, `MarkItDownConfig`. -/
structure MarkItDownConfig where
  converters : ConverterSettings := {}
  llm : LLMSettings := {}
  azure : AzureSettings := {}
  ocr : OCRSettings := {}
  audio : AudioSettings := {}
  server : ServerSettings := {}
  conversion : ConversionOptions := {}
deriving Repr, DecidableEq

/-- A JSON value, as produced by `dataclasses.asdict` + `json.dump` and
consumed by `json.load` (`json.dump`/`json.load` compose to the identity on
the bools, ints, floats, strings, nulls and string arrays occurring here, so
the file is modelled as carrying the parsed value). -/
inductive JValue
  | null
  | jbool (b : Bool)
  | jint (n : Int)
  | jnum (q : Rat)
  | jstr (s : String)
  | jarr (xs : List JValue)
  | jobj (fields : List (String × JValue))
deriving Repr

/-- `asdict` of an `Optional[str]` field. -/
def jOptStr : Option String → JValue
  | none => .null
  | some s => .jstr s

/-- `asdict(ConverterSettings)`. -/
def converterSettingsDict (c : ConverterSettings) : List (String × JValue) :=
  [("enable_builtins", .jbool c.enable_builtins),
   ("enable_plugins", .jbool c.enable_plugins),
   ("korean_support", .jbool c.korean_support),
   ("max_workers", .jint c.max_workers)]

/-- `asdict(LLMSettings)`. -/
def llmSettingsDict (c : LLMSettings) : List (String × JValue) :=
  [("openai_api_key", jOptStr c.openai_api_key),
   ("llm_model", .jstr c.llm_model),
   ("max_tokens", .jint c.max_tokens),
   ("temperature", .jnum c.temperature)]

/-- `asdict(AzureSettings)`. -/
def azureSettingsDict (c : AzureSettings) : List (String × JValue) :=
  [("endpoint", jOptStr c.endpoint),
   ("key", jOptStr c.key),
   ("enabled", .jbool c.enabled)]

/-- `asdict(OCRSettings)`. -/
def ocrSettingsDict (c : OCRSettings) : List (String × JValue) :=
  [("tesseract_path", jOptStr c.tesseract_path),
   ("easyocr_enabled", .jbool c.easyocr_enabled),
   ("tesseract_enabled", .jbool c.tesseract_enabled),
   ("languages", .jarr (c.languages.map .jstr))]

/-- `asdict(AudioSettings)`. -/
def audioSettingsDict (c : AudioSettings) : List (String × JValue) :=
  [("whisper_model", .jstr c.whisper_model),
   ("local_whisper_enabled", .jbool c.local_whisper_enabled),
   ("openai_whisper_enabled", .jbool c.openai_whisper_enabled)]

/-- `asdict(ServerSettings)`. -/
def serverSettingsDict (c : ServerSettings) : List (String × JValue) :=
  [("log_level", .jstr c.log_level),
   ("log_file", jOptStr c.log_file),
   ("enable_cors", .jbool c.enable_cors),
   ("max_file_size_mb", .jint c.max_file_size_mb)]

/-- `asdict(ConversionOptions)`. -/
def conversionOptionsDict (c : ConversionOptions) : List (String × JValue) :=
  [("include_metadata", .jbool c.include_metadata),
   ("extract_images", .jbool c.extract_images),
   ("korean_optimization", .jbool c.korean_optimization),
   ("preserve_formatting", .jbool c.preserve_formatting)]

/-- `settings.py` lines 216-235, `save_config`: `asdict(self.config)` dumped
to the file. -/
def save_config (cfg : MarkItDownConfig) : JValue :=
  .jobj [("converters", .jobj (converterSettingsDict cfg.converters)),
         ("llm", .jobj (llmSettingsDict cfg.llm)),
         ("azure", .jobj (azureSettingsDict cfg.azure)),
         ("ocr", .jobj (ocrSettingsDict cfg.ocr)),
         ("audio", .jobj (audioSettingsDict cfg.audio)),
         ("server", .jobj (serverSettingsDict cfg.server)),
         ("conversion", .jobj (conversionOptionsDict cfg.conversion))]

/-- JSON object field lookup. -/
def jGet (fs : List (String × JValue)) (k : String) : Option JValue :=
  (fs.find? (fun p => p.1 = k)).map (fun p => p.2)

/-- `Section(**data)` rejects unknown keyword arguments. -/
def keysSubset (fs : List (String × JValue)) (allowed : List String) : Bool :=
  fs.all (fun p => allowed.contains p.1)

/-- Decode one bool field, defaulting when absent; a non-bool value would be
stored untyped by Python and is outside this well-typed model (`none`). -/
def decBoolD (fs : List (String × JValue)) (k : String) (d : Bool) :
    Option Bool :=
  match jGet fs k with
  | none => some d
  | some (.jbool b) => some b
  | some _ => none

/-- Decode one int field. -/
def decIntD (fs : List (String × JValue)) (k : String) (d : Int) :
    Option Int :=
  match jGet fs k with
  | none => some d
  | some (.jint n) => some n
  | some _ => none

/-- Decode one float field. -/
def decRatD (fs : List (String × JValue)) (k : String) (d : Rat) :
    Option Rat :=
  match jGet fs k with
  | none => some d
  | some (.jnum q) => some q
  | some _ => none

/-- Decode one string field. -/
def decStrD (fs : List (String × JValue)) (k : String) (d : String) :
    Option String :=
  match jGet fs k with
  | none => some d
  | some (.jstr s) => some s
  | some _ => none

/-- Decode one `Optional[str]` field. -/
def decOptStrD (fs : List (String × JValue)) (k : String) (d : Option String) :
    Option (Option String) :=
  match jGet fs k with
  | none => some d
  | some .null => some none
  | some (.jstr s) => some (some s)
  | some _ => none

/-- Decode a JSON array of strings. -/
def jStrList : List JValue → Option (List String)
  | [] => some []
  | .jstr s :: rest => (jStrList rest).map (fun l => s :: l)
  | _ => none

/-- Decode one string-list field. -/
def decListStrD (fs : List (String × JValue)) (k : String) (d : List String) :
    Option (List String) :=
  match jGet fs k with
  | none => some d
  | some (.jarr xs) => jStrList xs
  | some _ => none

/-- `ConverterSettings(**data["converters"])`. -/
def converterSettingsOfJ (v : JValue) : Option ConverterSettings :=
  match v with
  | .jobj fs =>
      if keysSubset fs ["enable_builtins", "enable_plugins",
          "korean_support", "max_workers"] then
        match decBoolD fs "enable_builtins" true,
              decBoolD fs "enable_plugins" true,
              decBoolD fs "korean_support" true,
              decIntD fs "max_workers" 4 with
        | some a, some b, some c, some d => some ⟨a, b, c, d⟩
        | _, _, _, _ => none
      else none
  | _ => none

/-- `LLMSettings(**data["llm"])`. -/
def llmSettingsOfJ (v : JValue) : Option LLMSettings :=
  match v with
  | .jobj fs =>
      if keysSubset fs ["openai_api_key", "llm_model", "max_tokens",
          "temperature"] then
        match decOptStrD fs "openai_api_key" none,
              decStrD fs "llm_model" "gpt-4o",
              decIntD fs "max_tokens" 300,
              decRatD fs "temperature" 0.1 with
        | some a, some b, some c, some d => some ⟨a, b, c, d⟩
        | _, _, _, _ => none
      else none
  | _ => none

/-- `AzureSettings(**data["azure"])`. -/
def azureSettingsOfJ (v : JValue) : Option AzureSettings :=
  match v with
  | .jobj fs =>
      if keysSubset fs ["endpoint", "key", "enabled"] then
        match decOptStrD fs "endpoint" none, decOptStrD fs "key" none,
              decBoolD fs "enabled" false with
        | some a, some b, some c => some ⟨a, b, c⟩
        | _, _, _ => none
      else none
  | _ => none

/-- `OCRSettings(**data["ocr"])`. -/
def ocrSettingsOfJ (v : JValue) : Option OCRSettings :=
  match v with
  | .jobj fs =>
      if keysSubset fs ["tesseract_path", "easyocr_enabled",
          "tesseract_enabled", "languages"] then
        match decOptStrD fs "tesseract_path" none,
              decBoolD fs "easyocr_enabled" true,
              decBoolD fs "tesseract_enabled" true,
              decListStrD fs "languages" ["ko", "en"] with
        | some a, some b, some c, some d => some ⟨a, b, c, d⟩
        | _, _, _, _ => none
      else none
  | _ => none

/-- `AudioSettings(**data["audio"])`. -/
def audioSettingsOfJ (v : JValue) : Option AudioSettings :=
  match v with
  | .jobj fs =>
      if keysSubset fs ["whisper_model", "local_whisper_enabled",
          "openai_whisper_enabled"] then
        match decStrD fs "whisper_model" "base",
              decBoolD fs "local_whisper_enabled" true,
              decBoolD fs "openai_whisper_enabled" false with
        | some a, some b, some c => some ⟨a, b, c⟩
        | _, _, _ => none
      else none
  | _ => none

/-- `ServerSettings(**data["server"])`. -/
def serverSettingsOfJ (v : JValue) : Option ServerSettings :=
  match v with
  | .jobj fs =>
      if keysSubset fs ["log_level", "log_file", "enable_cors",
          "max_file_size_mb"] then
        match decStrD fs "log_level" "INFO", decOptStrD fs "log_file" none,
              decBoolD fs "enable_cors" false,
              decIntD fs "max_file_size_mb" 100 with
        | some a, some b, some c, some d => some ⟨a, b, c, d⟩
        | _, _, _, _ => none
      else none
  | _ => none

/-- `ConversionOptions(**data["conversion"])`. -/
def conversionOptionsOfJ (v : JValue) : Option ConversionOptions :=
  match v with
  | .jobj fs =>
      if keysSubset fs ["include_metadata", "extract_images",
          "korean_optimization", "preserve_formatting"] then
        match decBoolD fs "include_metadata" false,
              decBoolD fs "extract_images" false,
              decBoolD fs "korean_optimization" false,
              decBoolD fs "preserve_formatting" true with
        | some a, some b, some c, some d => some ⟨a, b, c, d⟩
        | _, _, _, _ => none
      else none
  | _ => none

/-- `settings.py` lines 137-163, `_dict_to_config`: start from defaults and
overlay each present section; any failure (surfaced as `none`) aborts, and
`_load_config`'s `try` falls back to the all-defaults configuration. -/
def dict_to_config (v : JValue) : Option MarkItDownConfig :=
  match v with
  | .jobj fs => do
      let conv ← match jGet fs "converters" with
        | none => some ({} : ConverterSettings)
        | some j => converterSettingsOfJ j
      let llm ← match jGet fs "llm" with
        | none => some ({} : LLMSettings)
        | some j => llmSettingsOfJ j
      let azure ← match jGet fs "azure" with
        | none => some ({} : AzureSettings)
        | some j => azureSettingsOfJ j
      let ocr ← match jGet fs "ocr" with
        | none => some ({} : OCRSettings)
        | some j => ocrSettingsOfJ j
      let audio ← match jGet fs "audio" with
        | none => some ({} : AudioSettings)
        | some j => audioSettingsOfJ j
      let server ← match jGet fs "server" with
        | none => some ({} : ServerSettings)
        | some j => serverSettingsOfJ j
      let conversion ← match jGet fs "conversion" with
        | none => some ({} : ConversionOptions)
        | some j => conversionOptionsOfJ j
      some ⟨conv, llm, azure, ocr, audio, server, conversion⟩
  | _ => none

/-- `settings.py` line 199: boolean coercion of an environment value. -/
def parsePyBool (v : String) : Bool :=
  ["true", "1", "yes", "on"].contains (pyLower v)

/-- `int(value)` on a decimal string; `none` models `ValueError`, which the
source logs and skips (keeping the prior field value). -/
def parsePyInt (v : String) : Option Int :=
  let s := pyStripChars v.data
  let p := match s with
    | '-' :: rest => (true, rest)
    | '+' :: rest => (false, rest)
    | _ => (false, s)
  if p.2 ≠ [] ∧ p.2.all (fun c => '0' ≤ c ∧ c ≤ '9') then
    let n := p.2.foldl (fun acc c => acc * 10 + (c.toNat - '0'.toNat)) 0
    some (if p.1 then -(Int.ofNat n) else Int.ofNat n)
  else none

/-- `settings.py` lines 165-214, `_load_from_environment`: the fixed override
table applied in insertion order, with type coercion keyed on the current
field value's type (string-typed and `None` fields store the raw string;
`korean_support` is bool-coerced; `max_workers` is int-parsed, a parse
failure keeping the prior value). -/
def load_from_environment (cfg : MarkItDownConfig)
    (env : String → Option String) : MarkItDownConfig :=
  let cfg := match env "OPENAI_API_KEY" with
    | some v => { cfg with llm := { cfg.llm with openai_api_key := some v } }
    | none => cfg
  let cfg := match env "LLM_MODEL" with
    | some v => { cfg with llm := { cfg.llm with llm_model := v } }
    | none => cfg
  let cfg := match env "AZURE_DOCUMENT_INTELLIGENCE_ENDPOINT" with
    | some v => { cfg with azure := { cfg.azure with endpoint := some v } }
    | none => cfg
  let cfg := match env "AZURE_DOCUMENT_INTELLIGENCE_KEY" with
    | some v => { cfg with azure := { cfg.azure with key := some v } }
    | none => cfg
  let cfg := match env "TESSERACT_PATH" with
    | some v => { cfg with ocr := { cfg.ocr with tesseract_path := some v } }
    | none => cfg
  let cfg := match env "WHISPER_MODEL" with
    | some v => { cfg with audio := { cfg.audio with whisper_model := v } }
    | none => cfg
  let cfg := match env "LOG_LEVEL" with
    | some v => { cfg with server := { cfg.server with log_level := v } }
    | none => cfg
  let cfg := match env "LOG_FILE" with
    | some v => { cfg with server := { cfg.server with log_file := some v } }
    | none => cfg
  let cfg := match env "KOREAN_SUPPORT" with
    | some v => { cfg with converters :=
        { cfg.converters with korean_support := parsePyBool v } }
    | none => cfg
  let cfg := match env "MAX_WORKERS" with
    | some v =>
        match parsePyInt v with
        | some n => { cfg with converters :=
            { cfg.converters with max_workers := n } }
        | none => cfg
    | none => cfg
  cfg

/-- The keys of the environment override table. -/
def envVarNames : List String :=
  ["OPENAI_API_KEY", "LLM_MODEL", "AZURE_DOCUMENT_INTELLIGENCE_ENDPOINT",
   "AZURE_DOCUMENT_INTELLIGENCE_KEY", "TESSERACT_PATH", "WHISPER_MODEL",
   "LOG_LEVEL", "LOG_FILE", "KOREAN_SUPPORT", "MAX_WORKERS"]

/-- `settings.py` lines 118-135, `_load_config` for an explicitly resolved
path: defaults, overlaid from the file when present and convertible (any
exception inside the `try` keeps the defaults), then environment
overrides. -/
def load_config (file : Option JValue) (env : String → Option String) :
    MarkItDownConfig :=
  let cfg : MarkItDownConfig :=
    match file with
    | none => {}
    | some j =>
        match dict_to_config j with
        | some c => c
        | none => {}
  load_from_environment cfg env


theorem jStrList_map (xs : List String) :
    jStrList (xs.map JValue.jstr) = some xs := by
  induction xs with
  | nil => rfl
  | cons s rest ih => simp [jStrList, ih]

theorem converterSettings_rt (c : ConverterSettings) :
    converterSettingsOfJ (.jobj (converterSettingsDict c)) = some c := rfl

theorem llmSettings_rt (c : LLMSettings) :
    llmSettingsOfJ (.jobj (llmSettingsDict c)) = some c := by
  rcases c with ⟨a, b, m, t⟩
  rcases a with _ | s <;> rfl

theorem azureSettings_rt (c : AzureSettings) :
    azureSettingsOfJ (.jobj (azureSettingsDict c)) = some c := by
  rcases c with ⟨a, b, e⟩
  rcases a with _ | s <;> rcases b with _ | t <;> rfl

theorem ocrSettings_rt (c : OCRSettings) :
    ocrSettingsOfJ (.jobj (ocrSettingsDict c)) = some c := by
  rcases c with ⟨p, e1, e2, langs⟩
  rcases p with _ | s <;>
    simp [ocrSettingsOfJ, ocrSettingsDict, jOptStr, keysSubset, jGet,
      decOptStrD, decBoolD, decListStrD, jStrList_map]

theorem audioSettings_rt (c : AudioSettings) :
    audioSettingsOfJ (.jobj (audioSettingsDict c)) = some c := rfl

theorem serverSettings_rt (c : ServerSettings) :
    serverSettingsOfJ (.jobj (serverSettingsDict c)) = some c := by
  rcases c with ⟨a, b, e, m⟩
  rcases b with _ | s <;> rfl

theorem conversionOptions_rt (c : ConversionOptions) :
    conversionOptionsOfJ (.jobj (conversionOptionsDict c)) = some c := rfl

theorem dict_to_config_save (cfg : MarkItDownConfig) :
    dict_to_config (save_config cfg) = some cfg := by
  rcases cfg with ⟨conv, llm, az, ocr, au, srv, cvo⟩
  simp [dict_to_config, save_config, jGet, converterSettings_rt,
    llmSettings_rt, azureSettings_rt, ocrSettings_rt, audioSettings_rt,
    serverSettings_rt, conversionOptions_rt]

theorem load_from_environment_id (cfg : MarkItDownConfig)
    (env : String → Option String)
    (henv : ∀ name ∈ envVarNames, env name = none) :
    load_from_environment cfg env = cfg := by
  have e1 := henv "OPENAI_API_KEY" (by simp [envVarNames])
  have e2 := henv "LLM_MODEL" (by simp [envVarNames])
  have e3 := henv "AZURE_DOCUMENT_INTELLIGENCE_ENDPOINT" (by simp [envVarNames])
  have e4 := henv "AZURE_DOCUMENT_INTELLIGENCE_KEY" (by simp [envVarNames])
  have e5 := henv "TESSERACT_PATH" (by simp [envVarNames])
  have e6 := henv "WHISPER_MODEL" (by simp [envVarNames])
  have e7 := henv "LOG_LEVEL" (by simp [envVarNames])
  have e8 := henv "LOG_FILE" (by simp [envVarNames])
  have e9 := henv "KOREAN_SUPPORT" (by simp [envVarNames])
  have e10 := henv "MAX_WORKERS" (by simp [envVarNames])
  simp [load_from_environment, e1, e2, e3, e4, e5, e6, e7, e8, e9, e10]

/-- C7: with none of the ten environment-variable overrides set, saving any
configuration with `save_config` and loading the resulting file back yields a
field-for-field equal configuration in every section. -/
theorem config_roundtrip (cfg : MarkItDownConfig)
    (env : String → Option String)
    (henv : ∀ name ∈ envVarNames, env name = none) :
    load_config (some (save_config cfg)) env = cfg := by
  simp only [load_config, dict_to_config_save]
  exact load_from_environment_id cfg env henv

/-- A configuration with a non-default value in every section. -/
def sampleConfig : MarkItDownConfig where
  converters := ⟨false, true, true, 8⟩
  llm := ⟨some "sk-test", "gpt-4o-mini", 512, 0.7⟩
  azure := ⟨some "https://example.invalid", some "azkey", true⟩
  ocr := ⟨some "/usr/bin/tesseract", false, true, ["en"]⟩
  audio := ⟨"small", false, true⟩
  server := ⟨"DEBUG", some "server.log", true, 250⟩
  conversion := ⟨true, true, true, false⟩

theorem config_roundtrip_witness :
    load_config (some (save_config sampleConfig)) (fun _ => none) =
      sampleConfig :=
  config_roundtrip sampleConfig (fun _ => none) (fun _ _ => rfl)


end Spec2Proof
